import Mathlib

/-!
# DoubleTake: allocator front-end (`xmemory.h`) and global phase (`globalinfo.h`)

A shallow embedding of `xmemory::malloc`, `xmemory::memalign`,
`xmemory::isObjectOverflow`, `xmemory::getObjectPtrAtFree`, `xmemory::free`,
`xmemory::checkOverflowBeforehand`, `xmemory::checkHeapOverflow`,
`xmemory::rollback` and `xmemory::rollbackonly`
(built with `DETECT_OVERFLOW`), over a byte-addressed memory, of the phase
variables and the rendezvous of `globalinfo.h`, as a step semantics, and of
`freelist::checkUAF` (`freelist.h`, built with `DETECT_USAGE_AFTER_FREE`).

* Addresses and `size_t` values are natural numbers; pointer arithmetic done in
  `intptr_t` / `size_t` is reduced modulo `2 ^ (8 * sizeof(size_t))`.
* Memory is little-endian (x86): a word read combines `WORD_SIZE` bytes.
* `assert`, `exit` and `abort` are explicit outcomes.
* The collaborators whose sources are not part of the front-end (`xdefines`,
  `objectHeader`, `sanitycheck`, `watchpoint`, `_pheap`, `_globals`, the
  quarantine's records) are parameters or are
  modelled from the specification; each such definition says so.
* A step of the rendezvous is one stretch of code run with the mutex held; a
  blocked `pthread_cond_wait` may return at any time.
-/

namespace DoubleTake

/-! ## Constants (`xdefines`) -/

/-- Modelled from the spec: `xdefines.h` is absent. The build flag `X86_32BIT` (tested by
`xmemory::malloc`) and the three guard constants are parameters. -/
structure xdefines where
  X86_32BIT : Bool
  SENTINEL_WORD : Nat
  MEMALIGN_SENTINEL_WORD : Nat
  MAGIC_BYTE_NOT_ALIGNED : Nat

/-- Modelled from the spec: `sizeof(size_t)`, 4 on the `X86_32BIT` build and 8 otherwise. -/
def sizeof_size_t (d : xdefines) : Nat := if d.X86_32BIT then 4 else 8

/-- Modelled from the spec: `xdefines::WORD_SIZE`, the "architecture word granularity", which is
the size of the `size_t` words the sentinels are read and written as. -/
def WORD_SIZE (d : xdefines) : Nat := sizeof_size_t d

/-- Modelled from the spec: `xdefines::WORD_SIZE_MASK`, the mask of the sub-word bits. -/
def WORD_SIZE_MASK (d : xdefines) : Nat := WORD_SIZE d - 1

/-- Number of values of a `size_t` / `intptr_t` / pointer: `2 ^ (8 * sizeof(size_t))`. -/
def PTR_MOD (d : xdefines) : Nat := 2 ^ (8 * sizeof_size_t d)

/-- The guard constants fit their C types: the two sentinel words are `size_t` values and the
magic byte is an `unsigned char` value. -/
def xdefines.wellFormed (d : xdefines) : Prop :=
  d.SENTINEL_WORD < PTR_MOD d ∧ d.MEMALIGN_SENTINEL_WORD < PTR_MOD d ∧
    d.MAGIC_BYTE_NOT_ALIGNED < 256

/-- The conversion `int mysize = sz;` of a `size_t` to a 32-bit `int` (two's complement). -/
def toInt (n : Nat) : Int :=
  if n % 2 ^ 32 < 2 ^ 31 then ((n % 2 ^ 32 : Nat) : Int) else ((n % 2 ^ 32 : Nat) : Int) - 2 ^ 32

/-! ## Byte memory -/

/-- The memory is a map from addresses to bytes; a read takes the stored value as a byte. -/
def readByte (mem : Nat → Nat) (a : Nat) : Nat := mem a % 256

/-- Store of an `unsigned char`: the value is truncated to a byte. -/
def writeByte (mem : Nat → Nat) (a v : Nat) : Nat → Nat :=
  fun x => if x = a then v % 256 else mem x

/-- Little-endian read of an `n`-byte word at address `a`. -/
def readWord (mem : Nat → Nat) : Nat → Nat → Nat
  | _, 0 => 0
  | a, n + 1 => readByte mem a + 256 * readWord mem (a + 1) n

/-- Little-endian store of the `n`-byte word `v` at address `a`. -/
def writeWord (mem : Nat → Nat) (a v n : Nat) : Nat → Nat :=
  fun x => if a ≤ x ∧ x < a + n then v / 256 ^ (x - a) % 256 else mem x

/-! ## Object header, watchpoints, program state -/

/-- Modelled from the spec: `objectheader.h` is absent. The per-allocation record placed
immediately before the returned pointer, with the fields of the data model: `block_size`,
`requested_size`, `free_flag` and the state of the `sanity_magic`. -/
structure objectHeader where
  block_size : Nat
  requested_size : Nat
  free_flag : Bool
  sanity_magic_intact : Bool

/-- Modelled from the spec: `objectHeader::getSize`, the `block_size()` accessor. -/
def objectHeader.getSize (o : objectHeader) : Nat := o.block_size

/-- Modelled from the spec: `objectHeader::getObjectSize`, the `requested_size()` accessor. -/
def objectHeader.getObjectSize (o : objectHeader) : Nat := o.requested_size

/-- Modelled from the spec: `objectHeader::setObjectSize`, `set_requested_size`. -/
def objectHeader.setObjectSize (o : objectHeader) (sz : Nat) : objectHeader :=
  { o with requested_size := sz }

/-- Modelled from the spec: `objectHeader::isObjectFree`, `is_free()`. -/
def objectHeader.isObjectFree (o : objectHeader) : Bool := o.free_flag

/-- Modelled from the spec: `objectHeader::setObjectFree`, `set_free()`. -/
def objectHeader.setObjectFree (o : objectHeader) : objectHeader :=
  { o with free_flag := true }

/-- Modelled from the spec: `objectHeader::isGoodObject`, `is_valid()` (sanity-magic check). -/
def objectHeader.isGoodObject (o : objectHeader) : Bool := o.sanity_magic_intact

/-- What the front-end does to its collaborators and to the process, in program order (newest
first). This is a ghost record: no code reads it. -/
inductive Event where
  | pheapMalloc (heapid : Int) (mysize : Int)
  | pheapFree (heapid : Int) (ptr : Nat)
  | caughtDoubleOrInvalidFree
  | printCallStack
  | pheapCheckHeapOverflow
  | watchpointHasToRollback
  | pheapRecoverHeapMetadata
  | globalsRecoverMemory
  | pheapRecoverMemory
  | watchpointInstallWatchpoints
  deriving DecidableEq, Repr

/-- The state the front-end works on.

* `mem`: the byte memory;
* `sentinels`: the record kept by `sanitycheck` of the addresses that carry a guard;
* `headers`: `headers p` is the object header `*getObject(p)`, the record just before `p`.
  The layout of `objectHeader` is not part of the sources, so the header is kept as a record
  and is not decoded from `mem`. Where the code itself stores into the bytes just before a
  pointer (the record `memalign` writes before `newptr`), the header read for that pointer is
  not known, and what is stated about it is stated for every header;
* `watchpoints`: the pairs handed to `watchpoint::addWatchpoint`, newest first;
* `trace`: the ghost record of collaborator calls. -/
structure State where
  mem : Nat → Nat
  sentinels : Nat → Bool
  headers : Nat → objectHeader
  watchpoints : List (Nat × Nat)
  trace : List Event

/-- Append an event to the ghost record. -/
def State.log (s : State) (e : Event) : State := { s with trace := e :: s.trace }

/-- Store through an `objectHeader *`: replace the header of the block at `p`. -/
def State.setHeader (s : State) (p : Nat) (o : objectHeader) : State :=
  { s with headers := fun x => if x = p then o else s.headers x }

/-- How a call ends: it returns, an `assert` fails, or the process exits. -/
inductive Outcome (α : Type) where
  | returned (val : α) (s : State)
  | assertFailed (s : State)
  | exited (status : Int) (s : State)

/-- Modelled from the spec: `xpheap.h` is absent. The underlying heap `_pheap` is a parameter:
`malloc heapid mysize` hands out a pointer (having set up the block and its header), `free`
takes a block back, `inRange` tells whether a pointer lies in the managed heap. -/
structure xpheap where
  malloc : Int → Int → State → Nat × State
  free : Int → Nat → State → State
  inRange : Nat → Bool

/-! ## Sentinel codec (`sanitycheck`) and watchpoint registry -/

namespace sanitycheck

/-- Modelled from the spec: `sanitycheck::markSentinelAt`, the variant for sub-word tails, whose
bytes the caller has written itself: the address is recorded as carrying a guard. -/
def markSentinelAt (s : State) (addr : Nat) : State :=
  { s with sentinels := fun x => if x = addr then true else s.sentinels x }

/-- Modelled from the spec: `sanitycheck::setSentinelAt` "writes a distinguished word-sized
pattern (`SENTINEL_WORD`)" at the address, and records the address. -/
def setSentinelAt (d : xdefines) (s : State) (addr : Nat) : State :=
  markSentinelAt { s with mem := writeWord s.mem addr d.SENTINEL_WORD (WORD_SIZE d) } addr

/-- Modelled from the spec: `sanitycheck::setMemalignSentinelAt`, the variant for memalign's
pre-block gap, which writes `MEMALIGN_SENTINEL_WORD`. -/
def setMemalignSentinelAt (d : xdefines) (s : State) (addr : Nat) : State :=
  markSentinelAt { s with mem := writeWord s.mem addr d.MEMALIGN_SENTINEL_WORD (WORD_SIZE d) } addr

/-- Modelled from the spec: `sanitycheck::clearSentinelAt` clears the guard: the address is no
longer recorded. The memory is left as it is (`isObjectOverflow` clears the word that still
holds the last bytes of the caller's data). -/
def clearSentinelAt (s : State) (addr : Nat) : State :=
  { s with sentinels := fun x => if x = addr then false else s.sentinels x }

/-- Modelled from the spec: `sanitycheck::checkAndClearSentinel` "returns true iff the pattern
is still intact; clears it regardless". -/
def checkAndClearSentinel (d : xdefines) (s : State) (addr : Nat) : Bool × State :=
  (decide (readWord s.mem addr (WORD_SIZE d) = d.SENTINEL_WORD), clearSentinelAt s addr)

end sanitycheck

namespace watchpoint

/-- Modelled from the spec: `watchpoint::addWatchpoint(addr, expected)` "stores" the pair. The
list holds every pair handed to the registry. -/
def addWatchpoint (s : State) (addr value : Nat) : State :=
  { s with watchpoints := (addr, value) :: s.watchpoints }

end watchpoint

/-! ## The allocator front-end (`xmemory`) -/

namespace xmemory

/-- The size `xmemory::malloc` computes for the underlying heap: `int mysize = sz;`, raised to
16 when `sz < 16` unless the build is `X86_32BIT`. -/
def mysize (d : xdefines) (sz : Nat) : Int :=
  if d.X86_32BIT then toInt sz else if sz < 16 then 16 else toInt sz

/-- The loop `for (i = 1; i < setBytes; i++) p[i] = MAGIC_BYTE_NOT_ALIGNED;` of `malloc`:
`fillMagic magic mem p i n` runs `n` iterations from index `i`. -/
def fillMagic (magic : Nat) (mem : Nat → Nat) (p : Nat) : Nat → Nat → (Nat → Nat)
  | _, 0 => mem
  | i, n + 1 => fillMagic magic (writeByte mem (p + i) magic) p (i + 1) n

/-- The loop of `isObjectOverflow` that looks for a byte `p[i] != MAGIC_BYTE_NOT_ALIGNED`,
`1 <= i < setBytes`, and stops at the first one: `magicBroken magic mem p i n` runs at most `n`
iterations from index `i`. -/
def magicBroken (magic : Nat) (mem : Nat → Nat) (p : Nat) : Nat → Nat → Bool
  | _, 0 => false
  | i, n + 1 => if readByte mem (p + i) ≠ magic then true else magicBroken magic mem p (i + 1) n

/-- The function `xmemory::malloc (heapid, sz)`. -/
def malloc (d : xdefines) (pheap : xpheap) (s : State) (heapid : Int) (sz : Nat) : Outcome Nat :=
  let r := pheap.malloc heapid (mysize d sz) (s.log (.pheapMalloc heapid (mysize d sz)))
  let ptr := r.1
  let o := r.2.headers ptr
  let size := o.getSize
  let s1 := r.2.setHeader ptr (o.setObjectSize sz)
  if size < sz then .assertFailed s1
  else if size > sz then
    let offset := size - sz
    let p := (ptr + sz) % PTR_MOD d
    let nonAlignedBytes := sz &&& WORD_SIZE_MASK d
    if nonAlignedBytes = 0 then
      .returned ptr (sanitycheck.setSentinelAt d s1 p)
    else
      let startp := (p + PTR_MOD d - nonAlignedBytes) % PTR_MOD d
      let setBytes := WORD_SIZE d - nonAlignedBytes
      let s2 := { s1 with mem := writeByte s1.mem p (setBytes - 1) }
      let s3 := { s2 with
        mem := fillMagic d.MAGIC_BYTE_NOT_ALIGNED s2.mem p 1 (setBytes - 1) }
      let s4 := sanitycheck.markSentinelAt s3 startp
      if offset > WORD_SIZE d then
        .returned ptr (sanitycheck.setSentinelAt d s4 ((p + setBytes) % PTR_MOD d))
      else .returned ptr s4
  else .returned ptr s1

/-- The function `xmemory::getAlignedAddress`: `(ptr + boundary) & ~(boundary - 1)`, in
`size_t` arithmetic. -/
def getAlignedAddress (d : xdefines) (ptr boundary : Nat) : Nat :=
  ((ptr + boundary) % PTR_MOD d) &&& (PTR_MOD d - 1 - (boundary + PTR_MOD d - 1) % PTR_MOD d)

/-- The pointer `newptr` of `xmemory::memalign` once the `offset == 0` adjustment is done, for
the raw pointer `ptr`. -/
def memalignPtr (d : xdefines) (ptr boundary : Nat) : Nat :=
  let newptr := getAlignedAddress d ptr boundary
  let offset := (newptr + PTR_MOD d - ptr) % PTR_MOD d
  if offset = 0 then (newptr + boundary) % PTR_MOD d else newptr

/-- The value `offset` of `xmemory::memalign` once the `offset == 0` adjustment is done. -/
def memalignOffset (d : xdefines) (ptr boundary : Nat) : Nat :=
  let newptr := getAlignedAddress d ptr boundary
  let offset := (newptr + PTR_MOD d - ptr) % PTR_MOD d
  if offset = 0 then boundary else offset

/-- The function `xmemory::memalign (heapid, boundary, sz)`. -/
def memalign (d : xdefines) (pheap : xpheap) (s : State) (heapid : Int) (boundary sz : Nat) :
    Outcome Nat :=
  match malloc d pheap s heapid ((boundary + sz) % PTR_MOD d) with
  | .returned ptr s1 =>
    let newptr := memalignPtr d ptr boundary
    let offset := memalignOffset d ptr boundary
    if offset < 2 * sizeof_size_t d then .assertFailed s1
    else
      let s2 := sanitycheck.setMemalignSentinelAt d s1
        ((newptr + PTR_MOD d - sizeof_size_t d) % PTR_MOD d)
      let origptr := (newptr + PTR_MOD d - 2 * sizeof_size_t d) % PTR_MOD d
      .returned newptr { s2 with mem := writeWord s2.mem origptr ptr (sizeof_size_t d) }
  | .assertFailed s1 => .assertFailed s1
  | .exited c s1 => .exited c s1

/-- The function `xmemory::isObjectOverflow (ptr)`. -/
def isObjectOverflow (d : xdefines) (s : State) (ptr : Nat) : Outcome Bool :=
  if ptr = 0 then .returned true s
  else
    let o := s.headers ptr
    let size := o.getSize
    let sz := o.getObjectSize
    if size < sz then .assertFailed s
    else if size > sz then
      let offset := size - sz
      let p := (ptr + sz) % PTR_MOD d
      let nonAlignedBytes := sz &&& WORD_SIZE_MASK d
      if nonAlignedBytes = 0 then
        let c := sanitycheck.checkAndClearSentinel d s p
        if c.1 ≠ true then
          .returned true (watchpoint.addWatchpoint c.2 p (readWord c.2.mem p (sizeof_size_t d)))
        else .returned false c.2
      else
        let startp := (p + PTR_MOD d - nonAlignedBytes) % PTR_MOD d
        let setBytes := WORD_SIZE d - nonAlignedBytes
        let isOverflow : Bool :=
          if readByte s.mem p = setBytes - 1 then
            magicBroken d.MAGIC_BYTE_NOT_ALIGNED s.mem p 1 (setBytes - 1)
          else true
        let s1 :=
          if isOverflow then
            watchpoint.addWatchpoint s startp (readWord s.mem startp (sizeof_size_t d))
          else s
        let s2 := sanitycheck.clearSentinelAt s1 startp
        if offset > WORD_SIZE d then
          let nextp := (startp + WORD_SIZE d) % PTR_MOD d
          let c := sanitycheck.checkAndClearSentinel d s2 nextp
          if c.1 ≠ true then
            .returned true
              (watchpoint.addWatchpoint c.2 nextp (readWord c.2.mem nextp (sizeof_size_t d)))
          else .returned isOverflow c.2
        else .returned isOverflow s2
    else .returned false s

/-- The function `xmemory::getObjectPtrAtFree (ptr)`: the pointer of the block and the state
after the call. -/
def getObjectPtrAtFree (d : xdefines) (s : State) (ptr : Nat) : Nat × State :=
  let prevPtr := (ptr + PTR_MOD d - sizeof_size_t d) % PTR_MOD d
  if readWord s.mem prevPtr (sizeof_size_t d) = d.MEMALIGN_SENTINEL_WORD then
    let ppPtr := (ptr + PTR_MOD d - 2 * sizeof_size_t d) % PTR_MOD d
    (readWord s.mem ppPtr (sizeof_size_t d), sanitycheck.clearSentinelAt s prevPtr)
  else (ptr, s)

/-- The function `xmemory::printCallsite`: prints the call stack and calls `exit(-1)`. -/
def printCallsite (s : State) : Outcome Unit :=
  .exited (-1) (s.log .printCallStack)

/-- The function `xmemory::free (heapid, ptr)`. -/
def free (d : xdefines) (pheap : xpheap) (s : State) (heapid : Int) (ptr : Nat) : Outcome Unit :=
  if pheap.inRange ptr = false then .returned () s
  else
    let g := getObjectPtrAtFree d s ptr
    let origptr := g.1
    match isObjectOverflow d g.2 origptr with
    | .assertFailed s1 => .assertFailed s1
    | .exited c s1 => .exited c s1
    | .returned true s1 => .returned () s1
    | .returned false s1 =>
      if origptr ≠ 0 then
        let o := s1.headers origptr
        if o.isObjectFree || !o.isGoodObject then
          printCallsite (s1.log .caughtDoubleOrInvalidFree)
        else
          let s2 := pheap.free heapid origptr (s1.log (.pheapFree heapid origptr))
          .returned () (s2.setHeader origptr (s2.headers origptr).setObjectFree)
      else .returned () s1

end xmemory

/-! ## Vocabulary of the properties -/

/-- Address `ptr + sz` of the first byte past the requested extent (`p` in `malloc` and in
`isObjectOverflow`). -/
def tailp (d : xdefines) (ptr sz : Nat) : Nat := (ptr + sz) % PTR_MOD d

/-- Address of the word that holds the first byte past the requested extent (`startp`). -/
def startp (d : xdefines) (ptr sz : Nat) : Nat :=
  (tailp d ptr sz + PTR_MOD d - sz % WORD_SIZE d) % PTR_MOD d

/-- Address of the word after `startp` (`nextp` in `isObjectOverflow`). -/
def nextp (d : xdefines) (ptr sz : Nat) : Nat := (startp d ptr sz + WORD_SIZE d) % PTR_MOD d

/-- The guard word at address `a` of a block (`ptr`, requested size `sz`, block size `size`) is
broken in `mem`: `a` is the address of one of the guard words of the block and the bytes kept
there are not the ones `malloc` encodes. For a word-aligned `sz` the guard is the word at
`ptr + sz`; otherwise it is the byte run in the word at `startp` (a length byte, then magic
bytes) and, when `size - sz > WORD_SIZE`, the word at `nextp`. -/
def guardWordBroken (d : xdefines) (mem : Nat → Nat) (ptr sz size a : Nat) : Prop :=
  if sz % WORD_SIZE d = 0 then
    a = tailp d ptr sz ∧ readWord mem (tailp d ptr sz) (WORD_SIZE d) ≠ d.SENTINEL_WORD
  else
    (a = startp d ptr sz ∧
      (readByte mem (tailp d ptr sz) ≠ WORD_SIZE d - sz % WORD_SIZE d - 1 ∨
        ∃ i, 1 ≤ i ∧ i < WORD_SIZE d - sz % WORD_SIZE d ∧
          readByte mem (tailp d ptr sz + i) ≠ d.MAGIC_BYTE_NOT_ALIGNED)) ∨
    (size - sz > WORD_SIZE d ∧ a = nextp d ptr sz ∧
      readWord mem (nextp d ptr sz) (WORD_SIZE d) ≠ d.SENTINEL_WORD)

/-- The byte at address `x` belongs to a guard that `malloc` writes for the block. -/
def inGuard (d : xdefines) (ptr sz size x : Nat) : Prop :=
  if sz % WORD_SIZE d = 0 then tailp d ptr sz ≤ x ∧ x < tailp d ptr sz + WORD_SIZE d
  else
    (tailp d ptr sz ≤ x ∧ x < tailp d ptr sz + (WORD_SIZE d - sz % WORD_SIZE d)) ∨
    (size - sz > WORD_SIZE d ∧ nextp d ptr sz ≤ x ∧ x < nextp d ptr sz + WORD_SIZE d)

/-- Number of bytes, from `ptr + sz` on, that the guards written by `malloc` cover: one word for
a word-aligned `sz`; otherwise the rest of the current word and, when
`size - sz > WORD_SIZE`, the next word. -/
def guardLen (d : xdefines) (sz size : Nat) : Nat :=
  if sz % WORD_SIZE d = 0 then WORD_SIZE d
  else if size - sz > WORD_SIZE d then WORD_SIZE d - sz % WORD_SIZE d + WORD_SIZE d
  else WORD_SIZE d - sz % WORD_SIZE d

/-! ## Concrete inputs -/

/-- A 64-bit build, with sample values for the guard constants. -/
def build64 : xdefines :=
  { X86_32BIT := false
    SENTINEL_WORD := 0xCAFEBABECAFEBABE
    MEMALIGN_SENTINEL_WORD := 0xDADEBABEDADEBABE
    MAGIC_BYTE_NOT_ALIGNED := 0x7E }

/-- A state with zeroed memory, no guard recorded, no watchpoint. -/
def emptyState : State :=
  { mem := fun _ => 0
    sentinels := fun _ => false
    headers := fun _ => ⟨0, 0, false, true⟩
    watchpoints := []
    trace := [] }

/-- A heap that hands out the block at address 4096, of block size `blk`, with a fresh header,
and whose range is `[4096, 8192)`; its `free` leaves the state alone. -/
def sampleHeap (blk : Nat) : xpheap :=
  { malloc := fun _ _ s => (4096, s.setHeader 4096 ⟨blk, 0, false, true⟩)
    free := fun _ _ s => s
    inRange := fun p => decide (4096 ≤ p ∧ p < 8192) }

/-- A state with the block at 4096 (block size 32, requested size 24) whose tail holds zeros
where `malloc` had written the guard word. -/
def overflowedState : State := emptyState.setHeader 4096 ⟨32, 24, false, true⟩

/-- A heap like `sampleHeap` that hands out the block at address `p`. -/
def sampleHeapAt (p blk : Nat) : xpheap :=
  { malloc := fun _ _ s => (p, s.setHeader p ⟨blk, 0, false, true⟩)
    free := fun _ _ s => s
    inRange := fun q => decide (4096 ≤ q ∧ q < 8192) }

/-- A 32-bit build (`X86_32BIT` defined), with sample values for the guard constants. -/
def build32 : xdefines :=
  { X86_32BIT := true
    SENTINEL_WORD := 0xCAFEBABE
    MEMALIGN_SENTINEL_WORD := 0xDADEBABE
    MAGIC_BYTE_NOT_ALIGNED := 0x7E }

/-! ## Global phase and rendezvous (`globalinfo.h`) -/

/-- The `enum SystemPhase`. -/
inductive SystemPhase where
  | E_SYS_INIT
  | E_SYS_NORMAL_EXECUTION
  | E_SYS_EPOCH_END
  | E_SYS_ROLLBACK
  | E_SYS_EPOCH_BEGIN
  deriving DecidableEq, Repr

/-- The global variables of `globalinfo.h` that hold data (the mutexes and condition variables
are part of the step semantics below). The counters are C `int`s; their range plays no role in
what follows and they are kept as integers. -/
structure Globals where
  g_isRollback : Bool
  g_hasRollbacked : Bool
  g_numOfEnds : Int
  g_phase : SystemPhase
  g_waiters : Int
  g_waitersTotal : Int
  deriving DecidableEq, Repr

/-- The function `global_initialize` (the mutex and condition variable initialisations hold no
data). -/
def global_initialize (g : Globals) : Globals :=
  { g with
    g_isRollback := false
    g_hasRollbacked := false
    g_phase := .E_SYS_INIT
    g_numOfEnds := 0 }

/-- The function `global_setEpochEnd`. -/
def global_setEpochEnd (g : Globals) : Globals :=
  { g with g_numOfEnds := g.g_numOfEnds + 1, g_phase := .E_SYS_EPOCH_END }

/-- The function `global_isInitPhase`. -/
def global_isInitPhase (g : Globals) : Bool := decide (g.g_phase = .E_SYS_INIT)

/-- The function `global_isEpochEnd`. -/
def global_isEpochEnd (g : Globals) : Bool := decide (g.g_phase = .E_SYS_EPOCH_END)

/-- The function `global_isRollback`. -/
def global_isRollback (g : Globals) : Bool := decide (g.g_phase = .E_SYS_ROLLBACK)

/-- The function `global_isEpochBegin`. -/
def global_isEpochBegin (g : Globals) : Bool := decide (g.g_phase = .E_SYS_EPOCH_BEGIN)

/-- The function `global_setRollback`. -/
def global_setRollback (g : Globals) : Globals :=
  { g with g_phase := .E_SYS_ROLLBACK, g_hasRollbacked := true }

/-- The function `global_hasRollbacked`. -/
def global_hasRollbacked (g : Globals) : Bool := g.g_hasRollbacked

/-- The function `global_rollback`: `global_setRollback`, then a broadcast on `g_condWaiters`
and a message, which change no variable. -/
def global_rollback (g : Globals) : Globals := global_setRollback g

/-- The function `global_checkWaiters`: does `assert(g_waiters == 0)` hold? -/
def global_checkWaiters (g : Globals) : Bool := decide (g.g_waiters = 0)

/-- Where the committer stands: running, or blocked in the `pthread_cond_wait` on
`g_condCommitter` of `global_waitThreadsStops` or of `global_epochBegin`. -/
inductive CommitterPc where
  | running
  | inWaitThreadsStops
  | inEpochBegin
  deriving DecidableEq, Repr

/-- The threads and the globals.

* `asserted`: the threads that have passed `assert(global_isEpochEnd() == true)` at the entry of
  `global_waitForNotification` and have not taken the lock yet;
* `waiting`: the threads blocked in the `pthread_cond_wait` on `g_condWaiters` inside the loop
  of `global_waitForNotification`;
* `committer`: where the committer stands. -/
structure System where
  g : Globals
  asserted : List Nat
  waiting : List Nat
  committer : CommitterPc
  deriving DecidableEq, Repr

/-- The steps of the system. The phase setters are one step each (Modelled from the spec: their
callers are absent, and "phase is written only under the rendezvous mutex"). Each other step is
one stretch of code run with `g_mutexSignalhandler` held: from the lock, or from the return of a
`pthread_cond_wait`, up to the unlock or the next `pthread_cond_wait`. -/
inductive Step where
  | globalInit
  | setEpochEnd
  | setRollback
  | rollback
  | epochBegin
  | epochBeginWake
  | waitThreadsStops (totalwaiters : Int)
  | waitThreadsStopsWake
  | waitForNotificationAssert (t : Nat)
  | waitForNotificationLock (t : Nat)
  | waitForNotificationWake (t : Nat)
  deriving DecidableEq, Repr

/-- One step; `none` when the step cannot be taken by a thread standing there, or when the entry
assertion of `global_waitForNotification` fails (the process aborts).

A `pthread_cond_wait` may return at any time once the thread is blocked (a signal, a broadcast,
or a spurious wake-up, which POSIX allows), so the wake steps ask for nothing else and the
signals and broadcasts carry no state.

* `globalInit` is `global_initialize`; the next three steps are the setters they are named after.
* `epochBegin`: `g_phase = E_SYS_EPOCH_BEGIN`, broadcast, then `if (g_waiters != 0)` one
  `pthread_cond_wait`; `epochBeginWake` is the return of that wait, followed by the unlock.
* `waitThreadsStops n`: `g_waitersTotal = n`, then `while (g_waiters != g_waitersTotal)` wait;
  `waitThreadsStopsWake` tests the loop condition again.
* `waitForNotificationLock t`: `g_waiters++`, then `while (global_isEpochEnd())` wait, else
  `g_waiters--` and return; `waitForNotificationWake t` tests the loop condition again. -/
def System.step (s : System) : Step → Option System
  | .globalInit => some { s with g := global_initialize s.g }
  | .setEpochEnd => some { s with g := global_setEpochEnd s.g }
  | .setRollback => some { s with g := global_setRollback s.g }
  | .rollback => some { s with g := global_rollback s.g }
  | .epochBegin =>
    if s.committer = .running then
      if s.g.g_waiters ≠ 0 then
        some { s with g := { s.g with g_phase := .E_SYS_EPOCH_BEGIN }, committer := .inEpochBegin }
      else some { s with g := { s.g with g_phase := .E_SYS_EPOCH_BEGIN } }
    else none
  | .epochBeginWake =>
    if s.committer = .inEpochBegin then some { s with committer := .running } else none
  | .waitThreadsStops totalwaiters =>
    if s.committer = .running then
      if s.g.g_waiters ≠ totalwaiters then
        some { s with
          g := { s.g with g_waitersTotal := totalwaiters }, committer := .inWaitThreadsStops }
      else some { s with g := { s.g with g_waitersTotal := totalwaiters } }
    else none
  | .waitThreadsStopsWake =>
    if s.committer = .inWaitThreadsStops then
      if s.g.g_waiters ≠ s.g.g_waitersTotal then some s
      else some { s with committer := .running }
    else none
  | .waitForNotificationAssert t =>
    if t ∈ s.asserted ∨ t ∈ s.waiting then none
    else if global_isEpochEnd s.g then some { s with asserted := t :: s.asserted }
    else none
  | .waitForNotificationLock t =>
    if t ∈ s.asserted then
      if global_isEpochEnd s.g then
        some { s with
          g := { s.g with g_waiters := s.g.g_waiters + 1 }
          asserted := s.asserted.erase t
          waiting := t :: s.waiting }
      else
        some { s with
          g := { s.g with g_waiters := s.g.g_waiters + 1 - 1 }
          asserted := s.asserted.erase t }
    else none
  | .waitForNotificationWake t =>
    if t ∈ s.waiting then
      if global_isEpochEnd s.g then some s
      else
        some { s with
          g := { s.g with g_waiters := s.g.g_waiters - 1 }
          waiting := s.waiting.erase t }
    else none

/-- A run: the steps taken one after the other. -/
def System.run (s : System) : List Step → Option System
  | [] => some s
  | st :: rest => (s.step st).bind (fun s1 => System.run s1 rest)

/-- The globals as the C runtime zero-initialises them. -/
def Globals.zero : Globals :=
  { g_isRollback := false
    g_hasRollbacked := false
    g_numOfEnds := 0
    g_phase := .E_SYS_INIT
    g_waiters := 0
    g_waitersTotal := 0 }

/-- The initialised system: `global_initialize` has run, no thread is in the barrier. -/
def System.init : System :=
  { g := global_initialize Globals.zero
    asserted := []
    waiting := []
    committer := .running }

/-- A state is reachable when some run from the initialised system ends in it. -/
def System.Reachable (s : System) : Prop := ∃ steps, System.init.run steps = some s

/-- The transitions of §4.5 of the specification: Init to NormalExecution, NormalExecution to
EpochEnd, EpochEnd to EpochBegin or Rollback, Rollback to EpochBegin, EpochBegin to
NormalExecution. -/
def permittedTransition : SystemPhase → SystemPhase → Bool
  | .E_SYS_INIT, .E_SYS_NORMAL_EXECUTION => true
  | .E_SYS_NORMAL_EXECUTION, .E_SYS_EPOCH_END => true
  | .E_SYS_EPOCH_END, .E_SYS_EPOCH_BEGIN => true
  | .E_SYS_EPOCH_END, .E_SYS_ROLLBACK => true
  | .E_SYS_ROLLBACK, .E_SYS_EPOCH_BEGIN => true
  | .E_SYS_EPOCH_BEGIN, .E_SYS_NORMAL_EXECUTION => true
  | _, _ => false

/-- The phase that a step leaves, given the phase `p` it finds: the phase setters and
`epochBegin` store their own phase, the other steps store none. -/
def Step.phaseAfter (st : Step) (p : SystemPhase) : SystemPhase :=
  match st with
  | .globalInit => .E_SYS_INIT
  | .setEpochEnd => .E_SYS_EPOCH_END
  | .setRollback => .E_SYS_ROLLBACK
  | .rollback => .E_SYS_ROLLBACK
  | .epochBegin => .E_SYS_EPOCH_BEGIN
  | _ => p

/-- The system with thread 1 blocked in `global_waitForNotification` and the committer blocked
in `global_epochBegin`, which has stored `E_SYS_EPOCH_BEGIN`. -/
def parkedSystem : System :=
  { g :=
      { g_isRollback := false
        g_hasRollbacked := false
        g_numOfEnds := 1
        g_phase := .E_SYS_EPOCH_BEGIN
        g_waiters := 1
        g_waitersTotal := 1 }
    asserted := []
    waiting := [1]
    committer := .inEpochBegin }

/-! ## Checks at the end of an epoch and before a system call (`xmemory`) -/

namespace sanitycheck

/-- Modelled from the spec: `sanitycheck::hasSentinels(start, size)` "scans a range for any
sentinel pattern": some address of `[start, start + size)` is recorded as carrying a guard. -/
def hasSentinels (s : State) (start size : Nat) : Bool :=
  (List.range size).any (fun i => s.sentinels (start + i))

end sanitycheck

namespace xmemory

/-- The function `xmemory::checkOverflowBeforehand (start, size)`. -/
def checkOverflowBeforehand (d : xdefines) (pheap : xpheap) (s : State) (start size : Nat) :
    Bool :=
  if pheap.inRange start then
    let endp := (start + size) % PTR_MOD d
    if pheap.inRange endp then sanitycheck.hasSentinels s start size
    else true
  else false

/-- The function `xmemory::checkHeapOverflow`. The heap scan `_pheap.checkHeapOverflow()` and
`watchpoint::hasToRollback()` are absent and taken as parameters; each call is recorded in the
ghost trace before it is made. Modelled from the spec: `globalinfo::isRollback` is the
`is_rollback()` test, `global_isRollback`. -/
def checkHeapOverflow (g : Globals) (pheapCheckHeapOverflow hasToRollback : State → Bool × State)
    (s : State) : Bool × State :=
  if global_isRollback g then (false, s)
  else
    let r := pheapCheckHeapOverflow (s.log .pheapCheckHeapOverflow)
    if r.1 = false then
      let w := hasToRollback (r.2.log .watchpointHasToRollback)
      if w.1 then (true, w.2) else (r.1, w.2)
    else (r.1, r.2)

end xmemory

/-! ## Rollback (`xmemory::rollback`, `xmemory::rollbackonly`) -/

/-- Modelled from the spec: the collaborators of `xmemory::rollback` are absent (`xpheap.h`,
`xglobals.h`, `watchpoint.h`). Each of the four calls is a parameter acting on the state:
`_pheap.recoverHeapMetadata()`, `_globals.recoverMemory()`, `_pheap.recoverMemory()` and
`watchpoint::getInstance().installWatchpoints()`. -/
structure recovery where
  pheap_recoverHeapMetadata : State → State
  globals_recoverMemory : State → State
  pheap_recoverMemory : State → State
  watchpoint_installWatchpoints : State → State

namespace xmemory

/-- The function `xmemory::rollbackonly`: the three recovery calls in program order; the call of
`installWatchpoints` is commented out in the source. Each call is recorded in the ghost trace
before it is made. -/
def rollbackonly (c : recovery) (s : State) : State :=
  let s1 := c.pheap_recoverHeapMetadata (s.log .pheapRecoverHeapMetadata)
  let s2 := c.globals_recoverMemory (s1.log .globalsRecoverMemory)
  c.pheap_recoverMemory (s2.log .pheapRecoverMemory)

/-- The function `xmemory::rollback`: the three recovery calls in program order, then
`watchpoint::getInstance().installWatchpoints()`. Each call is recorded in the ghost trace
before it is made; the two `PRWRN` messages are not modelled. -/
def rollback (c : recovery) (s : State) : State :=
  let s1 := c.pheap_recoverHeapMetadata (s.log .pheapRecoverHeapMetadata)
  let s2 := c.globals_recoverMemory (s1.log .globalsRecoverMemory)
  let s3 := c.pheap_recoverMemory (s2.log .pheapRecoverMemory)
  c.watchpoint_installWatchpoints (s3.log .watchpointInstallWatchpoints)

end xmemory

/-- A sample set of recovery collaborators: the heap forgets its headers, the globals and the
heap restore an all-zero memory image, and the registry is left as it is. -/
def sampleRecovery : recovery where
  pheap_recoverHeapMetadata := fun s => { s with headers := emptyState.headers }
  globals_recoverMemory := fun s => { s with mem := fun x => if x < 4096 then 0 else s.mem x }
  pheap_recoverMemory := fun s => { s with mem := fun x => if 4096 ≤ x then 0 else s.mem x }
  watchpoint_installWatchpoints := fun s => s

/-! ## Quarantine check (`freelist::checkUAF`, built with `DETECT_USAGE_AFTER_FREE`) -/

/-- Modelled from the spec: `struct freeObject` (`quarantine.h` is absent) is the `FreeRecord`
with the fields `ptr`, `owning_thread_index` and `size_at_free`. -/
structure freeObject where
  ptr : Nat
  owner : Int
  size : Nat
  deriving DecidableEq, Repr

namespace freelist

/-- Modelled from the spec: `freelist::retrieveFreeObject` is `_objects.retrieveIterEntry()`
(`recordentries.h` is absent), the `next()` of the iteration that `preFreeAllObjects` starts:
it hands out the next record not yet visited, or `NULL` (`none`) when there is none. The
argument is the list of records not yet visited. -/
def retrieveFreeObject : List freeObject → Option freeObject × List freeObject
  | [] => (none, [])
  | object :: rest => (some object, rest)

/-- The statement `while(1);` of `checkUAF`: the condition is the constant `1` and the body is
empty, so every iteration is followed by another one. `busyWait fuel` runs at most `fuel`
iterations; `none` says the loop has not ended within them. -/
def busyWait : Nat → Option Unit
  | 0 => none
  | fuel + 1 => busyWait fuel

/-- The loop `while ((object = retrieveFreeObject())) { ... }` of `freelist::checkUAF`, with the
locals `hasUAF` and `UAFErrors`. `hasUsageAfterFree` is absent and taken as a parameter. `fuel`
bounds the number of loop iterations run (of this loop and of the inner `while(1);`); `none`
says the function has not returned within them. The values `o` and `size` are not used by the
source. -/
def checkUAFLoop (hasUsageAfterFree : freeObject → Nat → Bool) :
    Nat → List freeObject → Bool → Int → Option Bool
  | 0, _, _, _ => none
  | fuel + 1, objects, hasUAF, UAFErrors =>
    match retrieveFreeObject objects with
    | (none, _) => some hasUAF
    | (some object, rest) =>
      match busyWait fuel with
      | none => none
      | some _ =>
        if hasUsageAfterFree object object.size then
          if UAFErrors + 1 = 4 then some true
          else checkUAFLoop hasUsageAfterFree fuel rest true (UAFErrors + 1)
        else checkUAFLoop hasUsageAfterFree fuel rest hasUAF UAFErrors

/-- The function `freelist::checkUAF`: `hasUAF = false`, `UAFErrors = 0`, `preFreeAllObjects()`
starts the iteration over the quarantined records `objects`, then the loop runs. -/
def checkUAF (hasUsageAfterFree : freeObject → Nat → Bool) (fuel : Nat)
    (objects : List freeObject) : Option Bool :=
  checkUAFLoop hasUsageAfterFree fuel objects false 0

end freelist

/-- The state in which a call ends. -/
def Outcome.state {α : Type} : Outcome α → State
  | .returned _ s => s
  | .assertFailed s => s
  | .exited _ s => s

/-- The state after `memalign(64, 100)` on the 64-bit build (raw pointer 4096, new pointer 4160)
once the sentinel word at 4152 has been overwritten with zero. `getObject(4160)` reads as
object header the bytes just before 4160, which are the record `memalign` wrote there; the
layout of `objectHeader` is not part of the sources, so the header these bytes are read as is
the parameter `h`. -/
def damagedMemalignState (h : objectHeader) : State :=
  match xmemory.memalign build64 (sampleHeap 256) emptyState 0 64 100 with
  | .returned _ s2 => State.setHeader { s2 with mem := writeWord s2.mem 4152 0 8 } 4160 h
  | .assertFailed s2 => s2
  | .exited _ s2 => s2

/-! ## Memory and arithmetic lemmas -/

theorem WORD_SIZE_cases (d : xdefines) : WORD_SIZE d = 4 ∧ PTR_MOD d = 4294967296 ∨
    WORD_SIZE d = 8 ∧ PTR_MOD d = 18446744073709551616 := by
  unfold WORD_SIZE PTR_MOD sizeof_size_t
  cases d.X86_32BIT <;> simp

theorem land_WORD_SIZE_MASK (d : xdefines) (sz : Nat) :
    sz &&& WORD_SIZE_MASK d = sz % WORD_SIZE d := by
  unfold WORD_SIZE_MASK WORD_SIZE sizeof_size_t
  cases d.X86_32BIT
  · exact Nat.and_pow_two_sub_one_eq_mod sz 3
  · exact Nat.and_pow_two_sub_one_eq_mod sz 2

theorem readByte_lt (mem : Nat → Nat) (a : Nat) : readByte mem a < 256 :=
  Nat.mod_lt _ (by decide)

theorem readByte_writeByte (mem : Nat → Nat) (a v x : Nat) :
    readByte (writeByte mem a v) x = if x = a then v % 256 else readByte mem x := by
  unfold readByte writeByte
  split <;> simp

theorem readWord_lt (mem : Nat → Nat) (a n : Nat) : readWord mem a n < 256 ^ n := by
  induction n generalizing a with
  | zero => simp [readWord]
  | succ n ih =>
    have h1 := readByte_lt mem a
    have h2 := ih (a + 1)
    simp only [readWord, pow_succ]
    omega

theorem readWord_congr (m1 m2 : Nat → Nat) (a n : Nat)
    (h : ∀ x, a ≤ x → x < a + n → readByte m1 x = readByte m2 x) :
    readWord m1 a n = readWord m2 a n := by
  induction n generalizing a with
  | zero => rfl
  | succ n ih =>
    simp only [readWord]
    rw [h a (Nat.le_refl a) (by omega), ih (a + 1) (fun x h1 h2 => h x (by omega) (by omega))]

theorem readWord_inj (m1 m2 : Nat → Nat) (a n : Nat)
    (h : readWord m1 a n = readWord m2 a n) :
    ∀ x, a ≤ x → x < a + n → readByte m1 x = readByte m2 x := by
  induction n generalizing a with
  | zero => intro x h1 h2; omega
  | succ n ih =>
    intro x h1 h2
    simp only [readWord] at h
    have b1 := readByte_lt m1 a
    have b2 := readByte_lt m2 a
    have hb : readByte m1 a = readByte m2 a := by omega
    have hr : readWord m1 (a + 1) n = readWord m2 (a + 1) n := by omega
    by_cases hx : x = a
    · subst hx; exact hb
    · exact ih (a + 1) hr x (by omega) (by omega)

theorem readByte_writeWord (mem : Nat → Nat) (a v n x : Nat) :
    readByte (writeWord mem a v n) x =
      if a ≤ x ∧ x < a + n then v / 256 ^ (x - a) % 256 else readByte mem x := by
  unfold readByte writeWord
  split <;> simp

theorem readWord_writeWord (mem : Nat → Nat) (a v n : Nat) :
    readWord (writeWord mem a v n) a n = v % 256 ^ n := by
  induction n generalizing a v mem with
  | zero => simp [readWord, Nat.mod_one]
  | succ n ih =>
    simp only [readWord]
    have h1 : readByte (writeWord mem a v (n + 1)) a = v % 256 := by
      rw [readByte_writeWord]; simp
    have h2 : readWord (writeWord mem a v (n + 1)) (a + 1) n =
        readWord (writeWord mem (a + 1) (v / 256) n) (a + 1) n := by
      apply readWord_congr
      intro x hx1 hx2
      rw [readByte_writeWord, readByte_writeWord]
      have e : x - a = (x - (a + 1)) + 1 := by omega
      rw [if_pos (by omega), if_pos (by omega), e, pow_succ, Nat.mul_comm,
        ← Nat.div_div_eq_div_mul]
    rw [h1, h2, ih, pow_succ, Nat.mul_comm (256 ^ n) 256, Nat.mod_mul]

theorem readWord_writeWord_disjoint (mem : Nat → Nat) (a v n b k : Nat)
    (h : b + k ≤ a ∨ a + n ≤ b) :
    readWord (writeWord mem a v n) b k = readWord mem b k := by
  apply readWord_congr
  intro x h1 h2
  rw [readByte_writeWord, if_neg (by omega)]

theorem fillMagic_apply (magic : Nat) (mem : Nat → Nat) (p i n x : Nat) :
    xmemory.fillMagic magic mem p i n x =
      if p + i ≤ x ∧ x < p + i + n then magic % 256 else mem x := by
  induction n generalizing mem i with
  | zero =>
    simp only [xmemory.fillMagic]
    rw [if_neg (by omega)]
  | succ n ih =>
    simp only [xmemory.fillMagic]
    rw [ih]
    unfold writeByte
    by_cases h1 : x = p + i
    · subst h1; simp
    · by_cases h2 : p + i ≤ x ∧ x < p + i + (n + 1)
      · rw [if_pos h2, if_pos (by omega)]
      · rw [if_neg h2, if_neg (by omega), if_neg h1]

theorem magicBroken_eq_true (magic : Nat) (mem : Nat → Nat) (p i n : Nat) :
    xmemory.magicBroken magic mem p i n = true ↔
      ∃ j, i ≤ j ∧ j < i + n ∧ readByte mem (p + j) ≠ magic := by
  induction n generalizing i with
  | zero =>
    simp only [xmemory.magicBroken]
    constructor
    · intro h; cases h
    · rintro ⟨j, h1, h2, _⟩; omega
  | succ n ih =>
    simp only [xmemory.magicBroken]
    by_cases h : readByte mem (p + i) = magic
    · simp only [h, ne_eq, not_true_eq_false, if_false]
      rw [ih]
      constructor
      · rintro ⟨j, h1, h2, h3⟩; exact ⟨j, by omega, by omega, h3⟩
      · rintro ⟨j, h1, h2, h3⟩
        have : j ≠ i := by rintro rfl; exact h3 h
        exact ⟨j, by omega, by omega, h3⟩
    · simp only [ne_eq, h, not_false_eq_true, if_true, true_iff]
      exact ⟨i, Nat.le_refl i, by omega, h⟩

/-! ## What `isObjectOverflow` and `malloc` do -/

theorem isObjectOverflow_spec (d : xdefines) (s : State) (ptr : Nat) (hnull : ptr ≠ 0)
    (hsize : (s.headers ptr).requested_size < (s.headers ptr).block_size) :
    ∃ b added s1, xmemory.isObjectOverflow d s ptr = .returned b s1 ∧
      s1.mem = s.mem ∧ s1.headers = s.headers ∧ s1.trace = s.trace ∧
      s1.watchpoints = added ++ s.watchpoints ∧ (b = true ↔ added ≠ []) ∧
      ∀ a v, (a, v) ∈ added ↔
        (guardWordBroken d s.mem ptr (s.headers ptr).requested_size (s.headers ptr).block_size a ∧
          v = readWord s.mem a (WORD_SIZE d)) := by
  unfold xmemory.isObjectOverflow
  generalize hsz : (s.headers ptr).requested_size = sz at hsize ⊢
  generalize hsi : (s.headers ptr).block_size = size at hsize ⊢
  have hp : (ptr + sz) % PTR_MOD d = tailp d ptr sz := rfl
  have hs : (tailp d ptr sz + PTR_MOD d - sz % WORD_SIZE d) % PTR_MOD d = startp d ptr sz := rfl
  have hn : (startp d ptr sz + WORD_SIZE d) % PTR_MOD d = nextp d ptr sz := rfl
  have hw : sizeof_size_t d = WORD_SIZE d := rfl
  simp only [hnull, if_false, objectHeader.getSize, objectHeader.getObjectSize, hsz, hsi,
    land_WORD_SIZE_MASK, if_neg (Nat.not_lt.mpr (Nat.le_of_lt hsize)), gt_iff_lt, hsize, if_true,
    hp, hs, hn, hw, sanitycheck.checkAndClearSentinel, sanitycheck.clearSentinelAt,
    watchpoint.addWatchpoint, guardWordBroken]
  by_cases hk : sz % WORD_SIZE d = 0
  · simp only [hk, if_true]
    by_cases hword : readWord s.mem (tailp d ptr sz) (WORD_SIZE d) = d.SENTINEL_WORD
    · simp only [hword, decide_True, ne_eq, not_true_eq_false, if_false, false_and, and_false]
      exact ⟨false, [], _, rfl, rfl, rfl, rfl, rfl, by simp, by simp⟩
    · simp only [hword, decide_False, ne_eq, not_false_eq_true, if_true, and_true]
      refine ⟨true, [(tailp d ptr sz, readWord s.mem (tailp d ptr sz) (WORD_SIZE d))], _,
        rfl, rfl, rfl, rfl, rfl, by simp, ?_⟩
      intro a v
      simp only [List.mem_singleton, Prod.mk.injEq]
      constructor
      · rintro ⟨rfl, rfl⟩; exact ⟨rfl, rfl⟩
      · rintro ⟨rfl, rfl⟩; exact ⟨rfl, rfl⟩
  · simp only [hk, if_false]
    generalize hrun : (if readByte s.mem (tailp d ptr sz) = WORD_SIZE d - sz % WORD_SIZE d - 1 then
      xmemory.magicBroken d.MAGIC_BYTE_NOT_ALIGNED s.mem (tailp d ptr sz) 1
        (WORD_SIZE d - sz % WORD_SIZE d - 1) else true) = run
    have hrun_iff : run = true ↔
        (readByte s.mem (tailp d ptr sz) ≠ WORD_SIZE d - sz % WORD_SIZE d - 1 ∨
          ∃ i, 1 ≤ i ∧ i < WORD_SIZE d - sz % WORD_SIZE d ∧
            readByte s.mem (tailp d ptr sz + i) ≠ d.MAGIC_BYTE_NOT_ALIGNED) := by
      rw [← hrun]
      by_cases h0 : readByte s.mem (tailp d ptr sz) = WORD_SIZE d - sz % WORD_SIZE d - 1
      · rw [if_pos h0, magicBroken_eq_true]
        constructor
        · rintro ⟨j, h1, h2, h3⟩; exact Or.inr ⟨j, h1, by omega, h3⟩
        · rintro (h | ⟨j, h1, h2, h3⟩)
          · exact absurd h0 h
          · exact ⟨j, h1, by omega, h3⟩
      · rw [if_neg h0]; simp [h0]
    by_cases hoff : WORD_SIZE d < size - sz
    · simp only [hoff, if_true, true_and]
      by_cases hword : readWord s.mem (nextp d ptr sz) (WORD_SIZE d) = d.SENTINEL_WORD
      · cases run
        · have hr := hrun_iff.not.mp (by simp)
          simp only [hword, Bool.false_eq_true, if_false, decide_True, ne_eq, not_true_eq_false,
            and_false, or_false]
          refine ⟨false, [], _, rfl, rfl, rfl, rfl, rfl, by simp, ?_⟩
          intro a v
          simp only [List.not_mem_nil, false_iff, not_and]
          intro h; exact absurd h.2 hr
        · have hr := hrun_iff.mp rfl
          simp only [hword, if_true, decide_True, ne_eq, not_true_eq_false, if_false,
            and_false, or_false]
          refine ⟨true, [(startp d ptr sz, readWord s.mem (startp d ptr sz) (WORD_SIZE d))], _,
            rfl, rfl, rfl, rfl, rfl, by simp, ?_⟩
          intro a v
          simp only [List.mem_singleton, Prod.mk.injEq]
          constructor
          · rintro ⟨rfl, rfl⟩; exact ⟨⟨rfl, hr⟩, rfl⟩
          · rintro ⟨⟨rfl, _⟩, rfl⟩; exact ⟨rfl, rfl⟩
      · cases run
        · have hr := hrun_iff.not.mp (by simp)
          simp only [hword, Bool.false_eq_true, if_false, decide_False, ne_eq, not_false_eq_true,
            if_true, and_true]
          refine ⟨true, [(nextp d ptr sz, readWord s.mem (nextp d ptr sz) (WORD_SIZE d))], _,
            rfl, rfl, rfl, rfl, rfl, by simp, ?_⟩
          intro a v
          simp only [List.mem_singleton, Prod.mk.injEq]
          constructor
          · rintro ⟨rfl, rfl⟩; exact ⟨Or.inr rfl, rfl⟩
          · rintro ⟨h | rfl, rfl⟩
            · exact absurd h.2 hr
            · exact ⟨rfl, rfl⟩
        · have hr := hrun_iff.mp rfl
          simp only [hword, if_true, decide_False, ne_eq, not_false_eq_true, and_true]
          refine ⟨true, [(nextp d ptr sz, readWord s.mem (nextp d ptr sz) (WORD_SIZE d)),
            (startp d ptr sz, readWord s.mem (startp d ptr sz) (WORD_SIZE d))], _,
            rfl, rfl, rfl, rfl, rfl, by simp, ?_⟩
          intro a v
          simp only [List.mem_cons, Prod.mk.injEq, List.mem_singleton, List.not_mem_nil, or_false]
          constructor
          · rintro (⟨rfl, rfl⟩ | ⟨rfl, rfl⟩)
            · exact ⟨Or.inr rfl, rfl⟩
            · exact ⟨Or.inl ⟨rfl, hr⟩, rfl⟩
          · rintro ⟨⟨rfl, _⟩ | rfl, rfl⟩
            · exact Or.inr ⟨rfl, rfl⟩
            · exact Or.inl ⟨rfl, rfl⟩
    · simp only [hoff, if_false, false_and, or_false]
      cases run
      · have hr := hrun_iff.not.mp (by simp)
        simp only [Bool.false_eq_true, if_false]
        refine ⟨false, [], _, rfl, rfl, rfl, rfl, rfl, by simp, ?_⟩
        intro a v
        simp only [List.not_mem_nil, false_iff, not_and]
        intro h; exact absurd h.2 hr
      · have hr := hrun_iff.mp rfl
        simp only [if_true]
        refine ⟨true, [(startp d ptr sz, readWord s.mem (startp d ptr sz) (WORD_SIZE d))], _,
          rfl, rfl, rfl, rfl, rfl, by simp, ?_⟩
        intro a v
        simp only [List.mem_singleton, Prod.mk.injEq]
        constructor
        · rintro ⟨rfl, rfl⟩; exact ⟨⟨rfl, hr⟩, rfl⟩
        · rintro ⟨⟨rfl, _⟩, rfl⟩; exact ⟨rfl, rfl⟩

theorem PTR_MOD_eq (d : xdefines) : PTR_MOD d = 256 ^ WORD_SIZE d := by
  unfold PTR_MOD WORD_SIZE sizeof_size_t
  cases d.X86_32BIT <;> simp

theorem nextp_eq_malloc (d : xdefines) (ptr sz : Nat) :
    (tailp d ptr sz + (WORD_SIZE d - sz % WORD_SIZE d)) % PTR_MOD d = nextp d ptr sz := by
  unfold nextp startp
  have hp : tailp d ptr sz < PTR_MOD d := by
    unfold tailp
    rcases WORD_SIZE_cases d with ⟨_, h2⟩ | ⟨_, h2⟩ <;> (rw [h2]; omega)
  rcases WORD_SIZE_cases d with ⟨h1, h2⟩ | ⟨h1, h2⟩ <;>
    · rw [h1, h2] at *
      omega

theorem readByte_fillMagic (magic : Nat) (mem : Nat → Nat) (p i n x : Nat) :
    readByte (xmemory.fillMagic magic mem p i n) x =
      if p + i ≤ x ∧ x < p + i + n then magic % 256 else readByte mem x := by
  unfold readByte
  rw [fillMagic_apply]
  split <;> simp

theorem tailp_lt (d : xdefines) (ptr sz : Nat) : tailp d ptr sz < PTR_MOD d := by
  unfold tailp
  rcases WORD_SIZE_cases d with ⟨_, h2⟩ | ⟨_, h2⟩ <;> (rw [h2]; omega)

theorem nextp_disjoint (d : xdefines) (ptr sz i : Nat) (hi : i < WORD_SIZE d - sz % WORD_SIZE d) :
    ¬ (nextp d ptr sz ≤ tailp d ptr sz + i ∧ tailp d ptr sz + i < nextp d ptr sz + WORD_SIZE d) := by
  rw [← nextp_eq_malloc]
  have hp := tailp_lt d ptr sz
  rcases WORD_SIZE_cases d with ⟨h1, h2⟩ | ⟨h1, h2⟩ <;>
    · rw [h1] at hi
      rw [h2] at hp
      rw [h1, h2]
      omega

/-- The byte run that `malloc` writes for a sub-word tail. -/
theorem subword_run (magic : Nat) (mem : Nat → Nat) (p n : Nat) (hM : magic < 256)
    (hn : n < 256) :
    readByte (xmemory.fillMagic magic (writeByte mem p n) p 1 n) p = n ∧
      ∀ i, 1 ≤ i → i < n + 1 →
        readByte (xmemory.fillMagic magic (writeByte mem p n) p 1 n) (p + i) = magic := by
  constructor
  · rw [readByte_fillMagic, if_neg (by omega), readByte_writeByte, if_pos rfl,
      Nat.mod_eq_of_lt hn]
  · intro i h1 h2
    rw [readByte_fillMagic, if_pos (by omega), Nat.mod_eq_of_lt hM]

/-- What `malloc` leaves behind when the block is larger than the request. -/
theorem malloc_spec (d : xdefines) (pheap : xpheap) (s : State) (heapid : Int) (sz ptr : Nat)
    (s0 : State) (hd : d.wellFormed)
    (hheap : pheap.malloc heapid (xmemory.mysize d sz)
      (s.log (.pheapMalloc heapid (xmemory.mysize d sz))) = (ptr, s0))
    (hsize : sz < (s0.headers ptr).block_size) :
    ∃ s1, xmemory.malloc d pheap s heapid sz = .returned ptr s1 ∧
      s1.headers ptr = (s0.headers ptr).setObjectSize sz ∧
      (∀ x, x ≠ ptr → s1.headers x = s0.headers x) ∧
      s1.watchpoints = s0.watchpoints ∧ s1.trace = s0.trace ∧
      (∀ a, ¬ guardWordBroken d s1.mem ptr sz (s0.headers ptr).block_size a) ∧
      (∀ x, ¬ inGuard d ptr sz (s0.headers ptr).block_size x → s1.mem x = s0.mem x) ∧
      (sz % WORD_SIZE d ≠ 0 → WORD_SIZE d < (s0.headers ptr).block_size - sz →
        s1.sentinels (nextp d ptr sz) = true) := by
  obtain ⟨hS, -, hM⟩ := hd
  unfold xmemory.malloc
  rw [hheap]
  generalize hsi : (s0.headers ptr).block_size = size at hsize ⊢
  have hp : (ptr + sz) % PTR_MOD d = tailp d ptr sz := rfl
  have hs : (tailp d ptr sz + PTR_MOD d - sz % WORD_SIZE d) % PTR_MOD d = startp d ptr sz := rfl
  simp only [objectHeader.getSize, hsi, if_neg (Nat.not_lt.mpr (Nat.le_of_lt hsize)), gt_iff_lt,
    hsize, if_true, land_WORD_SIZE_MASK, hp, hs, nextp_eq_malloc, guardWordBroken, inGuard]
  by_cases hk : sz % WORD_SIZE d = 0
  · simp only [hk, if_true]
    refine ⟨_, rfl, ?_, ?_, rfl, rfl, ?_, ?_, fun h => absurd rfl h⟩
    · simp [sanitycheck.setSentinelAt, sanitycheck.markSentinelAt, State.setHeader]
    · intro x hx
      simp [sanitycheck.setSentinelAt, sanitycheck.markSentinelAt, State.setHeader, hx]
    · intro a
      simp only [sanitycheck.setSentinelAt, sanitycheck.markSentinelAt, State.setHeader,
        readWord_writeWord, ← PTR_MOD_eq, Nat.mod_eq_of_lt hS]
      simp
    · intro x hx
      simp only [sanitycheck.setSentinelAt, sanitycheck.markSentinelAt, State.setHeader,
        writeWord]
      rw [if_neg hx]
  · simp only [hk, if_false]
    have hk1 : sz % WORD_SIZE d < WORD_SIZE d := Nat.mod_lt _ (by
      rcases WORD_SIZE_cases d with ⟨h1, _⟩ | ⟨h1, _⟩ <;> omega)
    have hW : WORD_SIZE d ≤ 8 := by
      rcases WORD_SIZE_cases d with ⟨h1, _⟩ | ⟨h1, _⟩ <;> omega
    obtain ⟨hr0, hr1⟩ := subword_run d.MAGIC_BYTE_NOT_ALIGNED s0.mem (tailp d ptr sz)
      (WORD_SIZE d - sz % WORD_SIZE d - 1) hM (by omega)
    by_cases hoff : WORD_SIZE d < size - sz
    · simp only [hoff, if_true, true_and]
      refine ⟨_, rfl, ?_, ?_, rfl, rfl, ?_, ?_, ?_⟩
      · simp [sanitycheck.setSentinelAt, sanitycheck.markSentinelAt, State.setHeader]
      · intro x hx
        simp [sanitycheck.setSentinelAt, sanitycheck.markSentinelAt, State.setHeader, hx]
      · intro a
        simp only [sanitycheck.setSentinelAt, sanitycheck.markSentinelAt, State.setHeader,
          readWord_writeWord, ← PTR_MOD_eq, Nat.mod_eq_of_lt hS, readByte_writeWord]
        have e0 := nextp_disjoint d ptr sz 0 (by omega)
        rw [Nat.add_zero] at e0
        rw [if_neg e0, hr0]
        rintro (⟨-, h | ⟨i, h1, h2, h3⟩⟩ | ⟨-, h⟩)
        · exact h rfl
        · rw [if_neg (nextp_disjoint d ptr sz i h2)] at h3
          exact h3 (hr1 i h1 (by omega))
        · exact h rfl
      · intro x hx
        simp only [sanitycheck.setSentinelAt, sanitycheck.markSentinelAt, State.setHeader,
          writeWord, fillMagic_apply, writeByte]
        have hx1 : ¬ (nextp d ptr sz ≤ x ∧ x < nextp d ptr sz + WORD_SIZE d) :=
          fun h => hx (Or.inr h)
        have hx2 : ¬ (tailp d ptr sz ≤ x ∧ x < tailp d ptr sz + (WORD_SIZE d - sz % WORD_SIZE d)) :=
          fun h => hx (Or.inl h)
        rw [if_neg hx1, if_neg (by omega), if_neg (by omega)]
      · intro _ _
        simp [sanitycheck.setSentinelAt, sanitycheck.markSentinelAt]
    · simp only [hoff, if_false, false_and, or_false]
      refine ⟨_, rfl, ?_, ?_, rfl, rfl, ?_, ?_, fun _ h => h.elim⟩
      · simp [sanitycheck.markSentinelAt, State.setHeader]
      · intro x hx
        simp [sanitycheck.markSentinelAt, State.setHeader, hx]
      · intro a
        simp only [sanitycheck.markSentinelAt, State.setHeader, hr0]
        rintro ⟨-, h | ⟨i, h1, h2, h3⟩⟩
        · exact h rfl
        · exact h3 (hr1 i h1 (by omega))
      · intro x hx
        simp only [sanitycheck.markSentinelAt, State.setHeader, fillMagic_apply, writeByte]
        rw [if_neg (by omega), if_neg (by omega)]

theorem isObjectOverflow_intact (d : xdefines) (s : State) (ptr : Nat) (hnull : ptr ≠ 0)
    (hsize : (s.headers ptr).requested_size < (s.headers ptr).block_size)
    (hintact : ∀ a, ¬ guardWordBroken d s.mem ptr (s.headers ptr).requested_size
      (s.headers ptr).block_size a) :
    ∃ s1, xmemory.isObjectOverflow d s ptr = .returned false s1 ∧ s1.mem = s.mem ∧
      s1.headers = s.headers ∧ s1.trace = s.trace ∧ s1.watchpoints = s.watchpoints := by
  obtain ⟨b, added, s1, h1, h2, h3, h4, h5, h6, h7⟩ := isObjectOverflow_spec d s ptr hnull hsize
  have hadd : added = [] := by
    cases added with
    | nil => rfl
    | cons x xs =>
      exact absurd ((h7 x.1 x.2).mp (List.mem_cons_self _ _)).1 (hintact x.1)
  subst hadd
  have hb : b = false := by
    cases b
    · rfl
    · exact absurd rfl (h6.mp rfl)
  subst hb
  exact ⟨s1, h1, h2, h3, h4, by simpa using h5⟩

theorem isObjectOverflow_broken (d : xdefines) (s : State) (ptr a : Nat) (hnull : ptr ≠ 0)
    (hsize : (s.headers ptr).requested_size < (s.headers ptr).block_size)
    (hbroken : guardWordBroken d s.mem ptr (s.headers ptr).requested_size
      (s.headers ptr).block_size a) :
    ∃ s1, xmemory.isObjectOverflow d s ptr = .returned true s1 := by
  obtain ⟨b, added, s1, h1, -, -, -, -, h6, h7⟩ := isObjectOverflow_spec d s ptr hnull hsize
  have hmem : (a, readWord s.mem a (WORD_SIZE d)) ∈ added := (h7 _ _).mpr ⟨hbroken, rfl⟩
  have hb : b = true := h6.mpr (List.ne_nil_of_mem hmem)
  subst hb
  exact ⟨s1, h1⟩

theorem isObjectOverflow_exact (d : xdefines) (s : State) (ptr : Nat) (hnull : ptr ≠ 0)
    (hsize : (s.headers ptr).requested_size = (s.headers ptr).block_size) :
    xmemory.isObjectOverflow d s ptr = .returned false s := by
  unfold xmemory.isObjectOverflow
  simp [hnull, objectHeader.getSize, objectHeader.getObjectSize, hsize]

theorem readWord_writeByte_ne (mem : Nat → Nat) (a n x v : Nat) (h1 : a ≤ x) (h2 : x < a + n)
    (hv : v % 256 ≠ readByte mem x) :
    readWord (writeByte mem x v) a n ≠ readWord mem a n := by
  intro h
  have := readWord_inj _ _ a n h x h1 h2
  rw [readByte_writeByte, if_pos rfl] at this
  exact hv this

theorem changed_guard_byte_broken (d : xdefines) (mem : Nat → Nat) (ptr sz size x v : Nat)
    (hintact : ∀ a, ¬ guardWordBroken d mem ptr sz size a)
    (hx : inGuard d ptr sz size x) (hv : v % 256 ≠ readByte mem x) :
    ∃ a, guardWordBroken d (writeByte mem x v) ptr sz size a := by
  unfold guardWordBroken at hintact ⊢
  unfold inGuard at hx
  by_cases hk : sz % WORD_SIZE d = 0
  · simp only [hk, if_true] at hintact hx ⊢
    have h0 : readWord mem (tailp d ptr sz) (WORD_SIZE d) = d.SENTINEL_WORD := by
      by_contra h; exact hintact _ ⟨rfl, h⟩
    refine ⟨_, rfl, ?_⟩
    rw [← h0]
    exact readWord_writeByte_ne mem _ _ x v hx.1 hx.2 hv
  · simp only [hk, if_false] at hintact hx ⊢
    rcases hx with hx | ⟨hoff, hx⟩
    · refine ⟨startp d ptr sz, Or.inl ⟨rfl, ?_⟩⟩
      by_cases hxp : x = tailp d ptr sz
      · left
        rw [readByte_writeByte, if_pos hxp.symm]
        intro h
        apply hintact (startp d ptr sz)
        left
        refine ⟨rfl, Or.inl ?_⟩
        rw [← hxp, ← h]; exact fun e => hv e.symm
      · right
        refine ⟨x - tailp d ptr sz, by omega, by omega, ?_⟩
        have e : tailp d ptr sz + (x - tailp d ptr sz) = x := by omega
        rw [e, readByte_writeByte, if_pos rfl]
        intro h
        apply hintact (startp d ptr sz)
        left
        refine ⟨rfl, Or.inr ⟨x - tailp d ptr sz, by omega, by omega, ?_⟩⟩
        rw [e, ← h]; exact fun e => hv e.symm
    · have h0 : readWord mem (nextp d ptr sz) (WORD_SIZE d) = d.SENTINEL_WORD := by
        by_contra h; exact hintact _ (Or.inr ⟨hoff, rfl, h⟩)
      refine ⟨nextp d ptr sz, Or.inr ⟨hoff, rfl, ?_⟩⟩
      rw [← h0]
      exact readWord_writeByte_ne mem _ _ x v hx.1 hx.2 hv

/-! ## Tail guards: `malloc` followed by `isObjectOverflow` -/

theorem tailp_eq (d : xdefines) (ptr sz : Nat) (h : ptr + sz < PTR_MOD d) :
    tailp d ptr sz = ptr + sz := Nat.mod_eq_of_lt h

theorem nextp_eq (d : xdefines) (ptr sz : Nat)
    (h : ptr + sz + (WORD_SIZE d - sz % WORD_SIZE d) < PTR_MOD d) :
    nextp d ptr sz = ptr + sz + (WORD_SIZE d - sz % WORD_SIZE d) := by
  rw [← nextp_eq_malloc, tailp_eq d ptr sz (by omega), Nat.mod_eq_of_lt h]

theorem inGuard_iff (d : xdefines) (ptr sz size x : Nat) (hsize : sz < size)
    (hfit : ptr + size ≤ PTR_MOD d) (hmult : size % WORD_SIZE d = 0) :
    (inGuard d ptr sz size x ↔ ptr + sz ≤ x ∧ x < ptr + sz + guardLen d sz size) ∧
      guardLen d sz size ≤ size - sz := by
  unfold inGuard guardLen
  rw [tailp_eq d ptr sz (by omega)]
  by_cases hk : sz % WORD_SIZE d = 0
  · simp only [hk, if_true, iff_self, true_and]
    rcases WORD_SIZE_cases d with ⟨h1, -⟩ | ⟨h1, -⟩ <;>
      · rw [h1] at hk hmult ⊢
        omega
  · simp only [hk, if_false]
    by_cases hoff : size - sz > WORD_SIZE d
    · have hlen : WORD_SIZE d - sz % WORD_SIZE d + WORD_SIZE d ≤ size - sz := by
        rcases WORD_SIZE_cases d with ⟨h1, -⟩ | ⟨h1, -⟩ <;>
          · rw [h1] at hk hmult hoff ⊢
            omega
      rw [nextp_eq d ptr sz (by omega)]
      simp only [hoff, if_true, true_and]
      exact ⟨by omega, hlen⟩
    · simp only [hoff, if_false, false_and, or_false, iff_self, true_and]
      rcases WORD_SIZE_cases d with ⟨h1, -⟩ | ⟨h1, -⟩ <;>
        · rw [h1] at hk hmult hoff ⊢
          omega

/-- C1: for every request size `sz` and every block handed out by the underlying heap (non-null
pointer) whose block size is strictly greater than `sz` (a multiple of `WORD_SIZE` or not),
`malloc` returns the pointer and `isObjectOverflow` run on it right away returns `false` and
leaves the watchpoint registry as it was; this covers the word-aligned branch, the sub-word
branch and `sz = 0`. -/
theorem malloc_then_isObjectOverflow_false (d : xdefines) (pheap : xpheap) (s : State)
    (heapid : Int) (sz ptr : Nat) (s0 : State) (hd : d.wellFormed)
    (hheap : pheap.malloc heapid (xmemory.mysize d sz)
      (s.log (.pheapMalloc heapid (xmemory.mysize d sz))) = (ptr, s0))
    (hnull : ptr ≠ 0) (hsize : sz < (s0.headers ptr).block_size) :
    ∃ s1 s2, xmemory.malloc d pheap s heapid sz = .returned ptr s1 ∧
      xmemory.isObjectOverflow d s1 ptr = .returned false s2 ∧
      s2.watchpoints = s1.watchpoints := by
  obtain ⟨s1, hm, hh, -, -, -, hint, -, -⟩ := malloc_spec d pheap s heapid sz ptr s0 hd hheap hsize
  have e1 : (s1.headers ptr).requested_size = sz := by rw [hh]; rfl
  have e2 : (s1.headers ptr).block_size = (s0.headers ptr).block_size := by rw [hh]; rfl
  obtain ⟨s2, hc, -, -, -, hw⟩ := isObjectOverflow_intact d s1 ptr hnull
    (by rw [e1, e2]; exact hsize) (by rw [e1, e2]; exact hint)
  exact ⟨s1, s2, hm, hc, hw⟩

/-- C2: after `malloc` of `sz` bytes in a larger block, storing at offset `sz` a byte different
from the one `malloc` left there makes the next `isObjectOverflow` return `true`, whatever
`sz mod WORD_SIZE` is. -/
theorem overflow_byte_at_sz_detected (d : xdefines) (pheap : xpheap) (s : State)
    (heapid : Int) (sz ptr : Nat) (s0 : State) (hd : d.wellFormed)
    (hheap : pheap.malloc heapid (xmemory.mysize d sz)
      (s.log (.pheapMalloc heapid (xmemory.mysize d sz))) = (ptr, s0))
    (hnull : ptr ≠ 0) (hsize : sz < (s0.headers ptr).block_size)
    (hfit : ptr + sz < PTR_MOD d) :
    ∃ s1, xmemory.malloc d pheap s heapid sz = .returned ptr s1 ∧
      ∀ v, v % 256 ≠ readByte s1.mem (ptr + sz) →
        ∃ s2, xmemory.isObjectOverflow d { s1 with mem := writeByte s1.mem (ptr + sz) v } ptr =
          .returned true s2 := by
  obtain ⟨s1, hm, hh, -, -, -, hint, -, -⟩ := malloc_spec d pheap s heapid sz ptr s0 hd hheap hsize
  refine ⟨s1, hm, ?_⟩
  intro v hv
  have e1 : (s1.headers ptr).requested_size = sz := by rw [hh]; rfl
  have e2 : (s1.headers ptr).block_size = (s0.headers ptr).block_size := by rw [hh]; rfl
  have hin : inGuard d ptr sz (s0.headers ptr).block_size (ptr + sz) := by
    unfold inGuard
    rw [tailp_eq d ptr sz hfit]
    rcases WORD_SIZE_cases d with ⟨h1, -⟩ | ⟨h1, -⟩ <;>
      · rw [h1]
        split
        · omega
        · left; omega
  obtain ⟨a, ha⟩ := changed_guard_byte_broken d s1.mem ptr sz _ (ptr + sz) v hint hin hv
  exact isObjectOverflow_broken d { s1 with mem := writeByte s1.mem (ptr + sz) v } ptr a hnull
    (by show (s1.headers ptr).requested_size < (s1.headers ptr).block_size
        rw [e1, e2]; exact hsize)
    (by show guardWordBroken d (writeByte s1.mem (ptr + sz) v) ptr
          (s1.headers ptr).requested_size (s1.headers ptr).block_size a
        rw [e1, e2]; exact ha)

theorem intact_subword (d : xdefines) (mem : Nat → Nat) (ptr sz size : Nat)
    (hk : sz % WORD_SIZE d ≠ 0) (hintact : ∀ a, ¬ guardWordBroken d mem ptr sz size a) :
    readByte mem (tailp d ptr sz) = WORD_SIZE d - sz % WORD_SIZE d - 1 ∧
      (∀ i, 1 ≤ i → i < WORD_SIZE d - sz % WORD_SIZE d →
        readByte mem (tailp d ptr sz + i) = d.MAGIC_BYTE_NOT_ALIGNED) ∧
      (size - sz > WORD_SIZE d →
        readWord mem (nextp d ptr sz) (WORD_SIZE d) = d.SENTINEL_WORD) := by
  unfold guardWordBroken at hintact
  simp only [hk, if_false] at hintact
  refine ⟨?_, ?_, ?_⟩
  · by_contra h
    exact hintact (startp d ptr sz) (Or.inl ⟨rfl, Or.inl h⟩)
  · intro i h1 h2
    by_contra h
    exact hintact (startp d ptr sz) (Or.inl ⟨rfl, Or.inr ⟨i, h1, h2, h⟩⟩)
  · intro hoff
    by_contra h
    exact hintact (nextp d ptr sz) (Or.inr ⟨hoff, rfl, h⟩)

/-- C3 (amended): after `malloc` of `sz` bytes in a larger block (block size a multiple of
`WORD_SIZE`, block inside the address space), the guards cover the first `guardLen` bytes of
the tail region, which lie inside it, and changing any single one of these bytes makes
`isObjectOverflow` return `true`. -/
theorem guarded_tail_byte_change_detected (d : xdefines) (pheap : xpheap) (s : State)
    (heapid : Int) (sz ptr : Nat) (s0 : State) (hd : d.wellFormed)
    (hheap : pheap.malloc heapid (xmemory.mysize d sz)
      (s.log (.pheapMalloc heapid (xmemory.mysize d sz))) = (ptr, s0))
    (hnull : ptr ≠ 0) (hsize : sz < (s0.headers ptr).block_size)
    (hfit : ptr + (s0.headers ptr).block_size ≤ PTR_MOD d)
    (hmult : (s0.headers ptr).block_size % WORD_SIZE d = 0) :
    ∃ s1, xmemory.malloc d pheap s heapid sz = .returned ptr s1 ∧
      guardLen d sz (s0.headers ptr).block_size ≤ (s0.headers ptr).block_size - sz ∧
      ∀ x v, ptr + sz ≤ x → x < ptr + sz + guardLen d sz (s0.headers ptr).block_size →
        v % 256 ≠ readByte s1.mem x →
        ∃ s2, xmemory.isObjectOverflow d { s1 with mem := writeByte s1.mem x v } ptr =
          .returned true s2 := by
  obtain ⟨s1, hm, hh, -, -, -, hint, -, -⟩ :=
    malloc_spec d pheap s heapid sz ptr s0 hd hheap hsize
  have e1 : (s1.headers ptr).requested_size = sz := by rw [hh]; rfl
  have e2 : (s1.headers ptr).block_size = (s0.headers ptr).block_size := by rw [hh]; rfl
  refine ⟨s1, hm, (inGuard_iff d ptr sz _ 0 hsize hfit hmult).2, ?_⟩
  intro x v hx1 hx2 hv
  have hin := (inGuard_iff d ptr sz _ x hsize hfit hmult).1.mpr ⟨hx1, hx2⟩
  obtain ⟨a, ha⟩ := changed_guard_byte_broken d s1.mem ptr sz _ x v hint hin hv
  exact isObjectOverflow_broken d { s1 with mem := writeByte s1.mem x v } ptr a hnull
    (by show (s1.headers ptr).requested_size < (s1.headers ptr).block_size
        rw [e1, e2]; exact hsize)
    (by show guardWordBroken d (writeByte s1.mem x v) ptr
          (s1.headers ptr).requested_size (s1.headers ptr).block_size a
        rw [e1, e2]; exact ha)

/-- C4: for every `malloc` with `k = sz mod WORD_SIZE != 0` in a larger block (inside the
address space), on return the byte at `ptr + sz` holds `WORD_SIZE - k - 1`, each of the
following `WORD_SIZE - k - 1` bytes holds `MAGIC_BYTE_NOT_ALIGNED` and, whenever
`block_size - sz > WORD_SIZE`, the word at `ptr + sz + (WORD_SIZE - k)` holds `SENTINEL_WORD`
and is recorded as a guard; that address is a word boundary when `ptr` is word-aligned. -/
theorem malloc_subword_encoding (d : xdefines) (pheap : xpheap) (s : State)
    (heapid : Int) (sz ptr : Nat) (s0 : State) (hd : d.wellFormed)
    (hheap : pheap.malloc heapid (xmemory.mysize d sz)
      (s.log (.pheapMalloc heapid (xmemory.mysize d sz))) = (ptr, s0))
    (hsize : sz < (s0.headers ptr).block_size)
    (hfit : ptr + (s0.headers ptr).block_size ≤ PTR_MOD d)
    (hk : sz % WORD_SIZE d ≠ 0) :
    ∃ s1, xmemory.malloc d pheap s heapid sz = .returned ptr s1 ∧
      readByte s1.mem (ptr + sz) = WORD_SIZE d - sz % WORD_SIZE d - 1 ∧
      (∀ i, 1 ≤ i → i ≤ WORD_SIZE d - sz % WORD_SIZE d - 1 →
        readByte s1.mem (ptr + sz + i) = d.MAGIC_BYTE_NOT_ALIGNED) ∧
      ((s0.headers ptr).block_size - sz > WORD_SIZE d →
        readWord s1.mem (ptr + sz + (WORD_SIZE d - sz % WORD_SIZE d)) (WORD_SIZE d) =
            d.SENTINEL_WORD ∧
          s1.sentinels (ptr + sz + (WORD_SIZE d - sz % WORD_SIZE d)) = true ∧
          (ptr % WORD_SIZE d = 0 →
            (ptr + sz + (WORD_SIZE d - sz % WORD_SIZE d)) % WORD_SIZE d = 0)) := by
  obtain ⟨s1, hm, -, -, -, -, hint, -, hmark⟩ :=
    malloc_spec d pheap s heapid sz ptr s0 hd hheap hsize
  obtain ⟨h0, h1, h2⟩ := intact_subword d s1.mem ptr sz _ hk hint
  have hW : 0 < WORD_SIZE d := by
    rcases WORD_SIZE_cases d with ⟨h, -⟩ | ⟨h, -⟩ <;> omega
  have hklt := Nat.mod_lt sz hW
  rw [tailp_eq d ptr sz (by omega)] at h0 h1
  refine ⟨s1, hm, h0, fun i hi1 hi2 => h1 i hi1 (by omega), ?_⟩
  intro hoff
  have hn := nextp_eq d ptr sz (by omega)
  rw [← hn]
  refine ⟨h2 hoff, hmark hk hoff, ?_⟩
  intro hal
  rw [hn]
  rcases WORD_SIZE_cases d with ⟨h, -⟩ | ⟨h, -⟩ <;>
    · rw [h] at hal hklt ⊢
      omega

/-! ## The request size, and `free` -/

theorem mysize_small (d : xdefines) (n : Nat) (h64 : d.X86_32BIT = false)
    (hn : n < 2147483648) : xmemory.mysize d n = ((max n 16 : Nat) : Int) := by
  unfold xmemory.mysize toInt
  simp only [h64, Bool.false_eq_true, if_false]
  by_cases h : n < 16
  · rw [if_pos h, max_eq_right (by omega)]; rfl
  · rw [if_neg h, max_eq_left (by omega)]
    have e : n % 2 ^ 32 = n := Nat.mod_eq_of_lt (by norm_num; omega)
    rw [e, if_pos (by norm_num; omega)]

/-- C5 (the code at the failing input): on the 64-bit build a request of `2 ^ 32` bytes is
narrowed by `int mysize = sz;` to `0`, which is what the underlying heap is asked for; with a
heap that answers that request by a 16-byte block, the recorded object size is `2 ^ 32` and the
assertion `size >= sz` fails. -/
theorem malloc_request_narrowed_to_int :
    xmemory.mysize build64 4294967296 = 0 ∧
      ∃ s1, xmemory.malloc build64 (sampleHeap 16) emptyState 0 4294967296 = .assertFailed s1 ∧
        s1.trace = [Event.pheapMalloc 0 0] ∧
        (s1.headers 4096).requested_size = 4294967296 ∧
        (s1.headers 4096).block_size = 16 :=
  ⟨by decide, _, rfl, by decide, by decide, by decide⟩

theorem isObjectOverflow_clean (d : xdefines) (s : State) (ptr : Nat) (hnull : ptr ≠ 0)
    (hsize : (s.headers ptr).requested_size ≤ (s.headers ptr).block_size)
    (hintact : (s.headers ptr).requested_size < (s.headers ptr).block_size →
      ∀ a, ¬ guardWordBroken d s.mem ptr (s.headers ptr).requested_size
        (s.headers ptr).block_size a) :
    ∃ s1, xmemory.isObjectOverflow d s ptr = .returned false s1 ∧ s1.mem = s.mem ∧
      s1.headers = s.headers ∧ s1.trace = s.trace ∧ s1.watchpoints = s.watchpoints := by
  rcases Nat.lt_or_ge (s.headers ptr).requested_size (s.headers ptr).block_size with h | h
  · exact isObjectOverflow_intact d s ptr hnull h (hintact h)
  · exact ⟨s, isObjectOverflow_exact d s ptr hnull (Nat.le_antisymm hsize h), rfl, rfl, rfl, rfl⟩

theorem getObjectPtrAtFree_plain (d : xdefines) (s : State) (ptr : Nat)
    (h : readWord s.mem ((ptr + PTR_MOD d - sizeof_size_t d) % PTR_MOD d) (sizeof_size_t d) ≠
      d.MEMALIGN_SENTINEL_WORD) :
    xmemory.getObjectPtrAtFree d s ptr = (ptr, s) := by
  unfold xmemory.getObjectPtrAtFree
  simp only [h, if_false]

/-- A `free` of a plain (not memaligned) block whose guards are intact: the double-free test
decides. -/
theorem free_plain_intact (d : xdefines) (pheap : xpheap) (s : State) (heapid : Int) (ptr : Nat)
    (hrange : pheap.inRange ptr = true) (hnull : ptr ≠ 0)
    (hplain : readWord s.mem ((ptr + PTR_MOD d - sizeof_size_t d) % PTR_MOD d)
      (sizeof_size_t d) ≠ d.MEMALIGN_SENTINEL_WORD)
    (hsize : (s.headers ptr).requested_size ≤ (s.headers ptr).block_size)
    (hintact : (s.headers ptr).requested_size < (s.headers ptr).block_size →
      ∀ a, ¬ guardWordBroken d s.mem ptr (s.headers ptr).requested_size
        (s.headers ptr).block_size a) :
    ∃ sc : State, sc.mem = s.mem ∧ sc.headers = s.headers ∧ sc.trace = s.trace ∧
      sc.watchpoints = s.watchpoints ∧
      xmemory.free d pheap s heapid ptr =
        if (s.headers ptr).free_flag = true ∨ (s.headers ptr).sanity_magic_intact = false then
          .exited (-1) ((sc.log .caughtDoubleOrInvalidFree).log .printCallStack)
        else
          .returned ()
            ((pheap.free heapid ptr (sc.log (.pheapFree heapid ptr))).setHeader ptr
              ((pheap.free heapid ptr (sc.log (.pheapFree heapid ptr))).headers
                ptr).setObjectFree) := by
  obtain ⟨sc, hc, h1, h2, h3, h4⟩ := isObjectOverflow_clean d s ptr hnull hsize hintact
  refine ⟨sc, h1, h2, h3, h4, ?_⟩
  unfold xmemory.free
  simp only [hrange, Bool.true_eq_false, if_false, getObjectPtrAtFree_plain d s ptr hplain, hc,
    ne_eq, hnull, not_false_eq_true, if_true, h2, objectHeader.isObjectFree,
    objectHeader.isGoodObject, xmemory.printCallsite]
  cases (s.headers ptr).free_flag <;> cases (s.headers ptr).sanity_magic_intact <;> simp

theorem guardWordBroken_range (d : xdefines) (mem : Nat → Nat) (ptr sz size a : Nat)
    (hsize : sz < size) (hfit : ptr + size ≤ PTR_MOD d)
    (h : guardWordBroken d mem ptr sz size a) :
    ptr + sz - sz % WORD_SIZE d ≤ a ∧ a < ptr + size := by
  unfold guardWordBroken at h
  have hW : 0 < WORD_SIZE d := by
    rcases WORD_SIZE_cases d with ⟨h, -⟩ | ⟨h, -⟩ <;> omega
  have hklt := Nat.mod_lt sz hW
  have hkle : sz % WORD_SIZE d ≤ sz := Nat.mod_le _ _
  have ht : tailp d ptr sz = ptr + sz := tailp_eq d ptr sz (by omega)
  have hs : startp d ptr sz = ptr + sz - sz % WORD_SIZE d := by
    unfold startp
    rw [ht]
    have e : ptr + sz + PTR_MOD d - sz % WORD_SIZE d =
        (ptr + sz - sz % WORD_SIZE d) + PTR_MOD d := by omega
    rw [e, Nat.add_mod_right, Nat.mod_eq_of_lt (by omega)]
  by_cases hk : sz % WORD_SIZE d = 0
  · rw [if_pos hk] at h
    rw [h.1, ht]
    omega
  · rw [if_neg hk] at h
    rcases h with ⟨h, -⟩ | ⟨hoff, h, -⟩
    · rw [h, hs]
      omega
    · have hn : nextp d ptr sz = ptr + sz - sz % WORD_SIZE d + WORD_SIZE d := by
        unfold nextp
        rw [hs, Nat.mod_eq_of_lt (by omega)]
      rw [h, hn]
      omega

/-- C8: for every pointer (NULL included) that the managed heap reports as out of range, `free`
returns at once with the state it was given: memory, guard record, object headers, watchpoint
registry and the record of calls to the underlying heap are all unchanged, whatever they
hold. -/
theorem free_out_of_range_noop (d : xdefines) (pheap : xpheap) (s : State) (heapid : Int)
    (ptr : Nat) (hrange : pheap.inRange ptr = false) :
    xmemory.free d pheap s heapid ptr = .returned () s := by
  unfold xmemory.free
  simp only [hrange, if_true]

/-! ## `memalign` -/

theorem PTR_MOD_pos (d : xdefines) : 0 < PTR_MOD d := by
  rcases WORD_SIZE_cases d with ⟨-, h⟩ | ⟨-, h⟩ <;> omega

theorem land_pow_mask (x n k : Nat) (hk : k ≤ n) (hx : x < 2 ^ n) :
    x &&& (2 ^ n - 2 ^ k) = 2 ^ k * (x / 2 ^ k) := by
  have e : 2 ^ n - 2 ^ k = 2 ^ k * (2 ^ (n - k) - 1) := by
    rw [Nat.mul_sub, Nat.mul_one, ← pow_add, Nat.add_sub_cancel' hk]
  rw [e, ← Nat.shiftRight_eq_div_pow]
  apply Nat.eq_of_testBit_eq
  intro i
  rw [Nat.testBit_and, Nat.testBit_mul_pow_two, Nat.testBit_mul_pow_two,
    Nat.testBit_two_pow_sub_one, Nat.testBit_shiftRight]
  by_cases h1 : k ≤ i
  · have e2 : k + (i - k) = i := by omega
    by_cases h2 : i < n
    · simp [h1, e2]; intro _; omega
    · have : x.testBit i = false :=
        Nat.testBit_lt_two_pow (lt_of_lt_of_le hx (Nat.pow_le_pow_right (by decide) (by omega)))
      simp [h1, e2, this]
  · simp [h1]

/-- For a power-of-two boundary, `getAlignedAddress` rounds `ptr + boundary` (in `size_t`
arithmetic) down to a multiple of the boundary. -/
theorem getAlignedAddress_pow2 (d : xdefines) (ptr k : Nat) (hbM : 2 ^ k < PTR_MOD d) :
    xmemory.getAlignedAddress d ptr (2 ^ k) =
      2 ^ k * ((ptr + 2 ^ k) % PTR_MOD d / 2 ^ k) := by
  unfold xmemory.getAlignedAddress
  have hpos : 0 < 2 ^ k := Nat.two_pow_pos k
  have e1 : (2 ^ k + PTR_MOD d - 1) % PTR_MOD d = 2 ^ k - 1 := by
    have : 2 ^ k + PTR_MOD d - 1 = (2 ^ k - 1) + PTR_MOD d := by omega
    rw [this, Nat.add_mod_right, Nat.mod_eq_of_lt (by omega)]
  have e2 : PTR_MOD d - 1 - (2 ^ k - 1) = PTR_MOD d - 2 ^ k := by omega
  rw [e1, e2]
  have hx := Nat.mod_lt (ptr + 2 ^ k) (PTR_MOD_pos d)
  unfold PTR_MOD at hbM hx ⊢
  exact land_pow_mask _ _ k (le_of_lt ((Nat.pow_lt_pow_iff_right (by decide)).mp hbM)) hx

theorem memalignPtr_lt (d : xdefines) (ptr boundary : Nat) :
    xmemory.memalignPtr d ptr boundary < PTR_MOD d := by
  unfold xmemory.memalignPtr
  simp only
  split
  · exact Nat.mod_lt _ (PTR_MOD_pos d)
  · unfold xmemory.getAlignedAddress
    exact lt_of_le_of_lt Nat.and_le_left (Nat.mod_lt _ (PTR_MOD_pos d))

theorem memalignPtr_dvd (d : xdefines) (ptr k : Nat) (hbM : 2 ^ k < PTR_MOD d) :
    2 ^ k ∣ xmemory.memalignPtr d ptr (2 ^ k) := by
  have h0 : 2 ^ k ∣ xmemory.getAlignedAddress d ptr (2 ^ k) := by
    rw [getAlignedAddress_pow2 d ptr k hbM]; exact Dvd.intro _ rfl
  have hM : 2 ^ k ∣ PTR_MOD d := by
    unfold PTR_MOD at hbM ⊢
    exact Nat.pow_dvd_pow 2 (le_of_lt ((Nat.pow_lt_pow_iff_right (by decide)).mp hbM))
  unfold xmemory.memalignPtr
  simp only
  split
  · rw [Nat.dvd_mod_iff hM]
    exact Nat.dvd_add h0 (dvd_refl _)
  · exact h0

theorem memalign_returns (d : xdefines) (pheap : xpheap) (s : State) (heapid : Int)
    (boundary sz ptr : Nat) (s1 : State)
    (hmalloc : xmemory.malloc d pheap s heapid ((boundary + sz) % PTR_MOD d) = .returned ptr s1)
    (hassert : 2 * sizeof_size_t d ≤ xmemory.memalignOffset d ptr boundary) :
    xmemory.memalign d pheap s heapid boundary sz =
      .returned (xmemory.memalignPtr d ptr boundary)
        { (sanitycheck.setMemalignSentinelAt d s1
            ((xmemory.memalignPtr d ptr boundary + PTR_MOD d - sizeof_size_t d) % PTR_MOD d)) with
          mem := writeWord
            (sanitycheck.setMemalignSentinelAt d s1
              ((xmemory.memalignPtr d ptr boundary + PTR_MOD d - sizeof_size_t d) %
                PTR_MOD d)).mem
            ((xmemory.memalignPtr d ptr boundary + PTR_MOD d - 2 * sizeof_size_t d) % PTR_MOD d)
            ptr (sizeof_size_t d) } := by
  unfold xmemory.memalign
  rw [hmalloc]
  simp only [if_neg (Nat.not_lt.mpr hassert)]

/-- C10: for every raw pointer handed to `memalign` by `malloc` and every power-of-two boundary
(a `size_t` value) for which the offset assertion holds, `memalign` returns, and the pointer it
returns is a multiple of the boundary. -/
theorem memalign_result_aligned (d : xdefines) (pheap : xpheap) (s : State) (heapid : Int)
    (k sz ptr : Nat) (s1 : State) (hbM : 2 ^ k < PTR_MOD d)
    (hmalloc : xmemory.malloc d pheap s heapid ((2 ^ k + sz) % PTR_MOD d) = .returned ptr s1)
    (hassert : 2 * sizeof_size_t d ≤ xmemory.memalignOffset d ptr (2 ^ k)) :
    ∃ newptr s2, xmemory.memalign d pheap s heapid (2 ^ k) sz = .returned newptr s2 ∧
      newptr % 2 ^ k = 0 :=
  ⟨_, _, memalign_returns d pheap s heapid (2 ^ k) sz ptr s1 hmalloc hassert,
    Nat.mod_eq_zero_of_dvd (memalignPtr_dvd d ptr k hbM)⟩

/-- C9: for every raw pointer `ptr` that `memalign` obtains from `malloc (boundary + sz)` and
every boundary for which the offset assertion holds, `memalign` returns a pointer `newptr` with
the memalign sentinel written and recorded at `newptr - WORD`, and `getObjectPtrAtFree` applied
to `newptr` returns exactly `ptr` and clears that sentinel: the address is no longer recorded
as a guard (the memory is left as it is). -/
theorem memalign_then_getObjectPtrAtFree (d : xdefines) (pheap : xpheap) (s : State)
    (heapid : Int) (boundary sz ptr : Nat) (s1 : State) (hd : d.wellFormed)
    (hptr : ptr < PTR_MOD d)
    (hmalloc : xmemory.malloc d pheap s heapid ((boundary + sz) % PTR_MOD d) = .returned ptr s1)
    (hassert : 2 * sizeof_size_t d ≤ xmemory.memalignOffset d ptr boundary) :
    ∃ newptr s2, xmemory.memalign d pheap s heapid boundary sz = .returned newptr s2 ∧
      readWord s2.mem ((newptr + PTR_MOD d - WORD_SIZE d) % PTR_MOD d) (WORD_SIZE d) =
        d.MEMALIGN_SENTINEL_WORD ∧
      s2.sentinels ((newptr + PTR_MOD d - WORD_SIZE d) % PTR_MOD d) = true ∧
      (xmemory.getObjectPtrAtFree d s2 newptr).1 = ptr ∧
      (xmemory.getObjectPtrAtFree d s2 newptr).2.sentinels
        ((newptr + PTR_MOD d - WORD_SIZE d) % PTR_MOD d) = false ∧
      (xmemory.getObjectPtrAtFree d s2 newptr).2.mem = s2.mem := by
  obtain ⟨-, hMS, -⟩ := hd
  refine ⟨_, _, memalign_returns d pheap s heapid boundary sz ptr s1 hmalloc hassert, ?_⟩
  have hlt := memalignPtr_lt d ptr boundary
  generalize xmemory.memalignPtr d ptr boundary = newptr at hlt ⊢
  have hw : sizeof_size_t d = WORD_SIZE d := rfl
  have hdisj : (newptr + PTR_MOD d - WORD_SIZE d) % PTR_MOD d + WORD_SIZE d ≤
        (newptr + PTR_MOD d - 2 * WORD_SIZE d) % PTR_MOD d ∨
      (newptr + PTR_MOD d - 2 * WORD_SIZE d) % PTR_MOD d + WORD_SIZE d ≤
        (newptr + PTR_MOD d - WORD_SIZE d) % PTR_MOD d := by
    rcases WORD_SIZE_cases d with ⟨h1, h2⟩ | ⟨h1, h2⟩ <;>
      · rw [h2] at hlt
        rw [h1, h2]
        omega
  have hread : readWord
      (writeWord
        (writeWord s1.mem ((newptr + PTR_MOD d - WORD_SIZE d) % PTR_MOD d)
          d.MEMALIGN_SENTINEL_WORD (WORD_SIZE d))
        ((newptr + PTR_MOD d - 2 * WORD_SIZE d) % PTR_MOD d) ptr (WORD_SIZE d))
      ((newptr + PTR_MOD d - WORD_SIZE d) % PTR_MOD d) (WORD_SIZE d) =
        d.MEMALIGN_SENTINEL_WORD := by
    rw [readWord_writeWord_disjoint _ _ _ _ _ _ hdisj, readWord_writeWord, ← PTR_MOD_eq,
      Nat.mod_eq_of_lt hMS]
  unfold xmemory.getObjectPtrAtFree
  simp only [hw, sanitycheck.setMemalignSentinelAt, sanitycheck.markSentinelAt, hread, if_true,
    sanitycheck.clearSentinelAt, readWord_writeWord, ← PTR_MOD_eq, Nat.mod_eq_of_lt hptr,
    and_self]

/-! ## Concrete instances -/

theorem build64_wellFormed : build64.wellFormed := by
  unfold xdefines.wellFormed PTR_MOD sizeof_size_t build64
  decide

theorem malloc_then_isObjectOverflow_false_witness :
    ∃ s1 s2, xmemory.malloc build64 (sampleHeap 32) emptyState 0 21 = .returned 4096 s1 ∧
      xmemory.isObjectOverflow build64 s1 4096 = .returned false s2 ∧
      s2.watchpoints = s1.watchpoints :=
  malloc_then_isObjectOverflow_false build64 (sampleHeap 32) emptyState 0 21 4096 _
    build64_wellFormed rfl (by decide) (by decide)

theorem overflow_byte_at_sz_detected_witness :
    ∃ s1, xmemory.malloc build64 (sampleHeap 32) emptyState 0 24 = .returned 4096 s1 ∧
      ∀ v, v % 256 ≠ readByte s1.mem (4096 + 24) →
        ∃ s2, xmemory.isObjectOverflow build64
          { s1 with mem := writeByte s1.mem (4096 + 24) v } 4096 = .returned true s2 :=
  overflow_byte_at_sz_detected build64 (sampleHeap 32) emptyState 0 24 4096 _
    build64_wellFormed rfl (by decide) (by decide) (by decide)

/-- C3 (counterexample): `malloc(0)` in a 16-byte block on the 64-bit build guards the word at
offset 0 only; the byte at offset 8 lies in the tail region `[ptr + 0, ptr + 16)`, and after it
is changed from 0 to 1 `isObjectOverflow` still returns `false`. -/
theorem tail_byte_beyond_guard_unchecked :
    ∃ s1 s2, xmemory.malloc build64 (sampleHeap 16) emptyState 0 0 = .returned 4096 s1 ∧
      (4096 + 0 ≤ 4104 ∧ 4104 < 4096 + 16) ∧ 1 % 256 ≠ readByte s1.mem 4104 ∧
      xmemory.isObjectOverflow build64 { s1 with mem := writeByte s1.mem 4104 1 } 4096 =
        .returned false s2 :=
  ⟨_, _, rfl, by decide, by decide, rfl⟩

theorem guarded_tail_byte_change_detected_witness :
    ∃ s1, xmemory.malloc build64 (sampleHeap 32) emptyState 0 13 = .returned 4096 s1 ∧
      guardLen build64 13 32 ≤ 32 - 13 ∧
      ∀ x v, 4096 + 13 ≤ x → x < 4096 + 13 + guardLen build64 13 32 →
        v % 256 ≠ readByte s1.mem x →
        ∃ s2, xmemory.isObjectOverflow build64 { s1 with mem := writeByte s1.mem x v } 4096 =
          .returned true s2 :=
  guarded_tail_byte_change_detected build64 (sampleHeap 32) emptyState 0 13 4096 _
    build64_wellFormed rfl (by decide) (by decide) (by decide) (by decide)

theorem malloc_subword_encoding_witness :
    ∃ s1, xmemory.malloc build64 (sampleHeap 32) emptyState 0 13 = .returned 4096 s1 ∧
      readByte s1.mem (4096 + 13) = WORD_SIZE build64 - 13 % WORD_SIZE build64 - 1 ∧
      (∀ i, 1 ≤ i → i ≤ WORD_SIZE build64 - 13 % WORD_SIZE build64 - 1 →
        readByte s1.mem (4096 + 13 + i) = build64.MAGIC_BYTE_NOT_ALIGNED) ∧
      (32 - 13 > WORD_SIZE build64 →
        readWord s1.mem (4096 + 13 + (WORD_SIZE build64 - 13 % WORD_SIZE build64))
            (WORD_SIZE build64) = build64.SENTINEL_WORD ∧
          s1.sentinels (4096 + 13 + (WORD_SIZE build64 - 13 % WORD_SIZE build64)) = true ∧
          (4096 % WORD_SIZE build64 = 0 →
            (4096 + 13 + (WORD_SIZE build64 - 13 % WORD_SIZE build64)) % WORD_SIZE build64 =
              0)) :=
  malloc_subword_encoding build64 (sampleHeap 32) emptyState 0 13 4096 _
    build64_wellFormed rfl (by decide) (by decide) (by decide)

theorem free_out_of_range_noop_witness :
    xmemory.free build64 (sampleHeap 32) emptyState 0 0 = .returned () emptyState :=
  free_out_of_range_noop build64 (sampleHeap 32) emptyState 0 0 (by decide)

theorem memalign_result_aligned_witness :
    ∃ newptr s2, xmemory.memalign build64 (sampleHeap 256) emptyState 0 (2 ^ 6) 100 =
        .returned newptr s2 ∧ newptr % 2 ^ 6 = 0 :=
  memalign_result_aligned build64 (sampleHeap 256) emptyState 0 6 100 4096 _ (by decide) rfl
    (by decide)

theorem memalign_then_getObjectPtrAtFree_witness :
    ∃ newptr s2, xmemory.memalign build64 (sampleHeap 256) emptyState 0 64 100 =
        .returned newptr s2 ∧
      readWord s2.mem ((newptr + PTR_MOD build64 - WORD_SIZE build64) % PTR_MOD build64)
        (WORD_SIZE build64) = build64.MEMALIGN_SENTINEL_WORD ∧
      s2.sentinels ((newptr + PTR_MOD build64 - WORD_SIZE build64) % PTR_MOD build64) = true ∧
      (xmemory.getObjectPtrAtFree build64 s2 newptr).1 = 4096 ∧
      (xmemory.getObjectPtrAtFree build64 s2 newptr).2.sentinels
        ((newptr + PTR_MOD build64 - WORD_SIZE build64) % PTR_MOD build64) = false ∧
      (xmemory.getObjectPtrAtFree build64 s2 newptr).2.mem = s2.mem :=
  memalign_then_getObjectPtrAtFree build64 (sampleHeap 256) emptyState 0 64 100 4096 _
    build64_wellFormed (by decide) rfl (by decide)

/-! ## `memalign`: room for the pre-block record, and a damaged record -/

/-- C11 (the code at the failing inputs): on the 64-bit build, with the word-aligned raw pointer
4096 and `boundary = WORD_SIZE = 8` the offset is 8, and with the word-aligned raw pointer 4104
and `boundary = 16` the offset is 8 as well; both are below `2 * sizeof(size_t) = 16`, and
`memalign` ends in the failed assertion instead of returning a pointer. -/
theorem memalign_offset_below_two_words :
    (4096 % WORD_SIZE build64 = 0 ∧ xmemory.memalignOffset build64 4096 8 = 8 ∧
      ∃ s1, xmemory.memalign build64 (sampleHeap 256) emptyState 0 8 100 = .assertFailed s1) ∧
    (4104 % WORD_SIZE build64 = 0 ∧ xmemory.memalignOffset build64 4104 16 = 8 ∧
      ∃ s1, xmemory.memalign build64 (sampleHeapAt 4104 256) emptyState 0 16 100 =
        .assertFailed s1) ∧
    2 * sizeof_size_t build64 = 16 :=
  ⟨⟨by decide, by decide, _, rfl⟩, ⟨by decide, by decide, _, rfl⟩, by decide⟩

/-- A `free` of an in-range pointer that `getObjectPtrAtFree` takes for a plain block pointer
(the word before it is not the memalign sentinel) ends in one of three ways, decided by the
header found for the pointer: the size assertion fails; or a tail guard word of that header is
broken, and `free` returns having added exactly the watchpoints for the broken guard words; or
the double-free test decides. -/
theorem free_plain_cases (d : xdefines) (pheap : xpheap) (s : State) (heapid : Int) (ptr : Nat)
    (hrange : pheap.inRange ptr = true) (hnull : ptr ≠ 0)
    (hplain : readWord s.mem ((ptr + PTR_MOD d - sizeof_size_t d) % PTR_MOD d)
      (sizeof_size_t d) ≠ d.MEMALIGN_SENTINEL_WORD) :
    ((s.headers ptr).block_size < (s.headers ptr).requested_size ∧
      xmemory.free d pheap s heapid ptr = .assertFailed s) ∨
    ((s.headers ptr).requested_size < (s.headers ptr).block_size ∧
      ∃ added s1, xmemory.free d pheap s heapid ptr = .returned () s1 ∧
        s1.trace = s.trace ∧ s1.headers = s.headers ∧ s1.mem = s.mem ∧
        s1.watchpoints = added ++ s.watchpoints ∧ added ≠ [] ∧
        ∀ a v, (a, v) ∈ added ↔
          (guardWordBroken d s.mem ptr (s.headers ptr).requested_size
            (s.headers ptr).block_size a ∧ v = readWord s.mem a (WORD_SIZE d))) ∨
    (∃ sc : State, sc.mem = s.mem ∧ sc.headers = s.headers ∧ sc.trace = s.trace ∧
      sc.watchpoints = s.watchpoints ∧
      xmemory.free d pheap s heapid ptr =
        if (s.headers ptr).free_flag = true ∨ (s.headers ptr).sanity_magic_intact = false then
          .exited (-1) ((sc.log .caughtDoubleOrInvalidFree).log .printCallStack)
        else
          .returned ()
            ((pheap.free heapid ptr (sc.log (.pheapFree heapid ptr))).setHeader ptr
              ((pheap.free heapid ptr (sc.log (.pheapFree heapid ptr))).headers
                ptr).setObjectFree)) := by
  rcases Nat.lt_trichotomy (s.headers ptr).block_size (s.headers ptr).requested_size with
    h | h | h
  · left
    refine ⟨h, ?_⟩
    unfold xmemory.free
    simp only [hrange, Bool.true_eq_false, if_false, getObjectPtrAtFree_plain d s ptr hplain]
    unfold xmemory.isObjectOverflow
    simp [hnull, objectHeader.getSize, objectHeader.getObjectSize, h]
  · right; right
    exact free_plain_intact d pheap s heapid ptr hrange hnull hplain (Nat.le_of_eq h.symm)
      (fun h' => absurd h' (by omega))
  · by_cases hbr : ∃ a, guardWordBroken d s.mem ptr (s.headers ptr).requested_size
        (s.headers ptr).block_size a
    · right; left
      refine ⟨h, ?_⟩
      obtain ⟨a0, ha0⟩ := hbr
      obtain ⟨b, added, s1, h1, h2, h3, h4, h5, h6, h7⟩ := isObjectOverflow_spec d s ptr hnull h
      have hmem : (a0, readWord s.mem a0 (WORD_SIZE d)) ∈ added := (h7 _ _).mpr ⟨ha0, rfl⟩
      have hne : added ≠ [] := List.ne_nil_of_mem hmem
      have hb : b = true := h6.mpr hne
      subst hb
      refine ⟨added, s1, ?_, h4, h3, h2, h5, hne, h7⟩
      unfold xmemory.free
      simp only [hrange, Bool.true_eq_false, if_false, getObjectPtrAtFree_plain d s ptr hplain,
        h1]
    · right; right
      exact free_plain_intact d pheap s heapid ptr hrange hnull hplain (Nat.le_of_lt h)
        (fun _ a hb => hbr ⟨a, hb⟩)

/-- C12 (counterexample): `memalign(64, 100)` on the 64-bit build returns 4160, with the
memalign sentinel at 4152 and the raw pointer 4096 at 4144. After the sentinel word is
overwritten with 0, whatever header the words before 4160 are read as (its block inside the
address space): `getObjectPtrAtFree(4160)` returns 4160 itself and changes nothing, and
`free(4160)`, however it ends, has recorded no watchpoint at the damaged word 4152 and has not
passed the raw pointer 4096 to the underlying heap. -/
theorem free_never_reports_damaged_memalign_sentinel :
    (∃ s2, xmemory.memalign build64 (sampleHeap 256) emptyState 0 64 100 = .returned 4160 s2 ∧
      readWord s2.mem 4152 8 = build64.MEMALIGN_SENTINEL_WORD ∧ readWord s2.mem 4144 8 = 4096) ∧
    0 ≠ build64.MEMALIGN_SENTINEL_WORD ∧
    ∀ h : objectHeader,
      readWord (damagedMemalignState h).mem 4152 8 = 0 ∧
      (damagedMemalignState h).headers 4160 = h ∧
      xmemory.getObjectPtrAtFree build64 (damagedMemalignState h) 4160 =
        (4160, damagedMemalignState h) ∧
      (4160 + h.block_size ≤ PTR_MOD build64 →
        (∀ v, (4152, v) ∉ (xmemory.free build64 (sampleHeap 256) (damagedMemalignState h) 0
          4160).state.watchpoints) ∧
        Event.pheapFree 0 4096 ∉ (xmemory.free build64 (sampleHeap 256)
          (damagedMemalignState h) 0 4160).state.trace) := by
  refine ⟨⟨_, rfl, by decide, by decide⟩, by decide, ?_⟩
  intro h
  have hword : readWord (damagedMemalignState h).mem 4152 8 = 0 := by
    show readWord (damagedMemalignState ⟨0, 0, false, true⟩).mem 4152 8 = 0
    decide
  have hplain : readWord (damagedMemalignState h).mem
      ((4160 + PTR_MOD build64 - sizeof_size_t build64) % PTR_MOD build64)
      (sizeof_size_t build64) ≠ build64.MEMALIGN_SENTINEL_WORD := by
    show readWord (damagedMemalignState ⟨0, 0, false, true⟩).mem
      ((4160 + PTR_MOD build64 - sizeof_size_t build64) % PTR_MOD build64)
      (sizeof_size_t build64) ≠ build64.MEMALIGN_SENTINEL_WORD
    decide
  have hhdr : (damagedMemalignState h).headers 4160 = h := rfl
  have hwp : (damagedMemalignState h).watchpoints = [] := rfl
  have htr : (damagedMemalignState h).trace =
      [.pheapMalloc 0 (xmemory.mysize build64 ((64 + 100) % PTR_MOD build64))] := rfl
  refine ⟨hword, hhdr, getObjectPtrAtFree_plain build64 _ 4160 hplain, ?_⟩
  intro hfit
  rcases free_plain_cases build64 (sampleHeap 256) (damagedMemalignState h) 0 4160 (by decide)
    (by decide) hplain with ⟨-, hf⟩ | ⟨hlt, added, s1, hf, ht, -, -, hw, -, hall⟩ |
    ⟨sc, -, -, c3, c4, hf⟩
  · rw [hf]
    simp [Outcome.state, hwp, htr]
  · rw [hf]
    simp only [Outcome.state, hw, ht, hwp, htr, List.append_nil]
    refine ⟨?_, by simp⟩
    intro v hv
    have hbr := ((hall 4152 v).mp hv).1
    rw [hhdr] at hbr hlt
    have hr := guardWordBroken_range build64 (damagedMemalignState h).mem 4160 _ _ 4152 hlt hfit
      hbr
    have := Nat.mod_le h.requested_size (WORD_SIZE build64)
    omega
  · rw [hf]
    by_cases hc : ((damagedMemalignState h).headers 4160).free_flag = true ∨
        ((damagedMemalignState h).headers 4160).sanity_magic_intact = false
    · rw [if_pos hc]
      simp [Outcome.state, State.log, c3, c4, hwp, htr]
    · rw [if_neg hc]
      simp [Outcome.state, State.log, State.setHeader, sampleHeap, c3, c4, hwp, htr]

/-- C12 (amended): when the word at `newptr - WORD` is not `MEMALIGN_SENTINEL_WORD`, `free` does
not notice a damaged memalign record: `getObjectPtrAtFree` returns `newptr` itself and leaves
the state alone (the raw pointer is not recovered, the guard record is not cleared), and `free`
handles `newptr` as a plain block pointer, with the header found just before `newptr`. It ends
in one of three ways. The size assertion fails on that header. Or a tail guard word of that
header is broken: `free` returns, and the watchpoints it has added are at such broken tail
guard words, inside `[newptr, newptr + block_size)` when that block lies inside the address
space, so none is at the damaged word. Or no watchpoint is recorded and the free is not
suppressed: `free` reports a double or invalid free and exits, or passes `newptr`, not the raw
pointer, to the underlying heap's `free` and marks that header free. -/
theorem free_without_memalign_sentinel_is_plain (d : xdefines) (pheap : xpheap) (s : State)
    (heapid : Int) (newptr : Nat) (hrange : pheap.inRange newptr = true) (hnull : newptr ≠ 0)
    (hmis : readWord s.mem ((newptr + PTR_MOD d - sizeof_size_t d) % PTR_MOD d)
      (sizeof_size_t d) ≠ d.MEMALIGN_SENTINEL_WORD) :
    xmemory.getObjectPtrAtFree d s newptr = (newptr, s) ∧
    (((s.headers newptr).block_size < (s.headers newptr).requested_size ∧
        xmemory.free d pheap s heapid newptr = .assertFailed s) ∨
      (∃ added s1, xmemory.free d pheap s heapid newptr = .returned () s1 ∧
        s1.trace = s.trace ∧ s1.headers = s.headers ∧ s1.mem = s.mem ∧
        s1.watchpoints = added ++ s.watchpoints ∧ added ≠ [] ∧
        ∀ a v, (a, v) ∈ added →
          guardWordBroken d s.mem newptr (s.headers newptr).requested_size
            (s.headers newptr).block_size a ∧
          (newptr + (s.headers newptr).block_size ≤ PTR_MOD d →
            newptr ≤ a ∧ a < newptr + (s.headers newptr).block_size)) ∨
      (∃ sc : State, sc.mem = s.mem ∧ sc.headers = s.headers ∧ sc.trace = s.trace ∧
        sc.watchpoints = s.watchpoints ∧
        xmemory.free d pheap s heapid newptr =
          if (s.headers newptr).free_flag = true ∨
              (s.headers newptr).sanity_magic_intact = false then
            .exited (-1) ((sc.log .caughtDoubleOrInvalidFree).log .printCallStack)
          else
            .returned ()
              ((pheap.free heapid newptr (sc.log (.pheapFree heapid newptr))).setHeader newptr
                ((pheap.free heapid newptr (sc.log (.pheapFree heapid newptr))).headers
                  newptr).setObjectFree))) := by
  refine ⟨getObjectPtrAtFree_plain d s newptr hmis, ?_⟩
  rcases free_plain_cases d pheap s heapid newptr hrange hnull hmis with
    h1 | ⟨hlt, added, s1, hf, ht, hh, hm, hw, hne, hall⟩ | h3
  · exact Or.inl h1
  · refine Or.inr (Or.inl ⟨added, s1, hf, ht, hh, hm, hw, hne, ?_⟩)
    intro a v hav
    have hbr := ((hall a v).mp hav).1
    refine ⟨hbr, fun hfit => ?_⟩
    have hr := guardWordBroken_range d s.mem newptr _ _ a hlt hfit hbr
    have := Nat.mod_le (s.headers newptr).requested_size (WORD_SIZE d)
    omega
  · exact Or.inr (Or.inr h3)

theorem free_without_memalign_sentinel_is_plain_witness :
    xmemory.getObjectPtrAtFree build64 (damagedMemalignState ⟨4096, 0, false, true⟩) 4160 =
      (4160, damagedMemalignState ⟨4096, 0, false, true⟩) ∧
    ((((damagedMemalignState ⟨4096, 0, false, true⟩).headers 4160).block_size <
          ((damagedMemalignState ⟨4096, 0, false, true⟩).headers 4160).requested_size ∧
        xmemory.free build64 (sampleHeap 256) (damagedMemalignState ⟨4096, 0, false, true⟩) 0
          4160 = .assertFailed (damagedMemalignState ⟨4096, 0, false, true⟩)) ∨
      (∃ added s1, xmemory.free build64 (sampleHeap 256)
          (damagedMemalignState ⟨4096, 0, false, true⟩) 0 4160 = .returned () s1 ∧
        s1.trace = (damagedMemalignState ⟨4096, 0, false, true⟩).trace ∧
        s1.headers = (damagedMemalignState ⟨4096, 0, false, true⟩).headers ∧
        s1.mem = (damagedMemalignState ⟨4096, 0, false, true⟩).mem ∧
        s1.watchpoints = added ++ (damagedMemalignState ⟨4096, 0, false, true⟩).watchpoints ∧
        added ≠ [] ∧
        ∀ a v, (a, v) ∈ added →
          guardWordBroken build64 (damagedMemalignState ⟨4096, 0, false, true⟩).mem 4160
            ((damagedMemalignState ⟨4096, 0, false, true⟩).headers 4160).requested_size
            ((damagedMemalignState ⟨4096, 0, false, true⟩).headers 4160).block_size a ∧
          (4160 + ((damagedMemalignState ⟨4096, 0, false, true⟩).headers 4160).block_size ≤
              PTR_MOD build64 →
            4160 ≤ a ∧
            a < 4160 +
              ((damagedMemalignState ⟨4096, 0, false, true⟩).headers 4160).block_size)) ∨
      (∃ sc : State, sc.mem = (damagedMemalignState ⟨4096, 0, false, true⟩).mem ∧
        sc.headers = (damagedMemalignState ⟨4096, 0, false, true⟩).headers ∧
        sc.trace = (damagedMemalignState ⟨4096, 0, false, true⟩).trace ∧
        sc.watchpoints = (damagedMemalignState ⟨4096, 0, false, true⟩).watchpoints ∧
        xmemory.free build64 (sampleHeap 256) (damagedMemalignState ⟨4096, 0, false, true⟩) 0
            4160 =
          if ((damagedMemalignState ⟨4096, 0, false, true⟩).headers 4160).free_flag = true ∨
              ((damagedMemalignState ⟨4096, 0, false, true⟩).headers 4160).sanity_magic_intact =
                false then
            .exited (-1) ((sc.log .caughtDoubleOrInvalidFree).log .printCallStack)
          else
            .returned ()
              (((sampleHeap 256).free 0 4160 (sc.log (.pheapFree 0 4160))).setHeader 4160
                (((sampleHeap 256).free 0 4160 (sc.log (.pheapFree 0 4160))).headers
                  4160).setObjectFree))) :=
  free_without_memalign_sentinel_is_plain build64 (sampleHeap 256)
    (damagedMemalignState ⟨4096, 0, false, true⟩) 0 4160 (by decide) (by decide) (by decide)

/-- For a power-of-two boundary, `getAlignedAddress` is `(ptr + boundary) mod 2^w` less its
remainder, and that remainder is the one of `ptr`. -/
theorem getAlignedAddress_sub_mod (d : xdefines) (ptr k : Nat) (hbM : 2 ^ k < PTR_MOD d) :
    xmemory.getAlignedAddress d ptr (2 ^ k) + ptr % 2 ^ k = (ptr + 2 ^ k) % PTR_MOD d := by
  have hM : 2 ^ k ∣ PTR_MOD d := by
    unfold PTR_MOD at hbM ⊢
    exact Nat.pow_dvd_pow 2 (le_of_lt ((Nat.pow_lt_pow_iff_right (by decide)).mp hbM))
  have e : (ptr + 2 ^ k) % PTR_MOD d % 2 ^ k = ptr % 2 ^ k := by
    rw [Nat.mod_mod_of_dvd _ hM, Nat.add_mod_right]
  rw [getAlignedAddress_pow2 d ptr k hbM, ← e]
  exact Nat.div_add_mod _ _

theorem memalign_offset_pow2 (d : xdefines) (ptr k : Nat) (hptr : ptr < PTR_MOD d)
    (hbM : 2 ^ k < PTR_MOD d) :
    (xmemory.getAlignedAddress d ptr (2 ^ k) + PTR_MOD d - ptr) % PTR_MOD d =
      2 ^ k - ptr % 2 ^ k := by
  have h1 := getAlignedAddress_sub_mod d ptr k hbM
  have h2 : ptr % 2 ^ k < 2 ^ k := Nat.mod_lt _ (Nat.two_pow_pos k)
  have h3 : ptr % 2 ^ k ≤ ptr := Nat.mod_le _ _
  generalize xmemory.getAlignedAddress d ptr (2 ^ k) = a at h1 ⊢
  generalize ptr % 2 ^ k = r at h1 h2 h3 ⊢
  generalize 2 ^ k = b at h1 h2 hbM ⊢
  rcases WORD_SIZE_cases d with ⟨-, hM⟩ | ⟨-, hM⟩ <;>
    · rw [hM] at h1 hptr hbM ⊢
      omega

/-- C18 (counterexample): on the 32-bit build, for the address `0xB0000000` and the boundary
`2 ^ 31`, the sum `ptr + boundary` wraps around and `getAlignedAddress` is 0, which is a
multiple of the boundary but not strictly greater than `ptr`. -/
theorem getAlignedAddress_wraps_around :
    xmemory.getAlignedAddress build32 2952790016 (2 ^ 31) = 0 ∧
      ¬ (2952790016 < xmemory.getAlignedAddress build32 2952790016 (2 ^ 31)) :=
  ⟨by decide, by decide⟩

/-- C18 (amended): for every address `ptr` and every power-of-two boundary (both `size_t`
values), the offset `newptr - ptr` that `memalign` computes lies in `[1, boundary]`, so the
`offset == 0` adjustment is never taken and `newptr` is `getAlignedAddress(ptr, boundary)`; and
when `ptr + boundary` does not wrap around the address space, `getAlignedAddress(ptr, boundary)`
is the least multiple of the boundary strictly greater than `ptr`, the offset is their
difference, and `[newptr, newptr + sz)` is contained in `[ptr, ptr + boundary + sz)`. -/
theorem getAlignedAddress_next_multiple (d : xdefines) (ptr k : Nat) (hptr : ptr < PTR_MOD d)
    (hbM : 2 ^ k < PTR_MOD d) :
    ((xmemory.getAlignedAddress d ptr (2 ^ k) + PTR_MOD d - ptr) % PTR_MOD d ≠ 0 ∧
      xmemory.memalignPtr d ptr (2 ^ k) = xmemory.getAlignedAddress d ptr (2 ^ k) ∧
      1 ≤ xmemory.memalignOffset d ptr (2 ^ k) ∧
      xmemory.memalignOffset d ptr (2 ^ k) ≤ 2 ^ k) ∧
    (ptr + 2 ^ k < PTR_MOD d →
      xmemory.getAlignedAddress d ptr (2 ^ k) % 2 ^ k = 0 ∧
      ptr < xmemory.getAlignedAddress d ptr (2 ^ k) ∧
      (∀ m, m % 2 ^ k = 0 → ptr < m → xmemory.getAlignedAddress d ptr (2 ^ k) ≤ m) ∧
      xmemory.memalignOffset d ptr (2 ^ k) = xmemory.memalignPtr d ptr (2 ^ k) - ptr ∧
      ∀ sz, ptr ≤ xmemory.memalignPtr d ptr (2 ^ k) ∧
        xmemory.memalignPtr d ptr (2 ^ k) + sz ≤ ptr + 2 ^ k + sz) := by
  have hoff := memalign_offset_pow2 d ptr k hptr hbM
  have h2 : ptr % 2 ^ k < 2 ^ k := Nat.mod_lt _ (Nat.two_pow_pos k)
  have hne : (xmemory.getAlignedAddress d ptr (2 ^ k) + PTR_MOD d - ptr) % PTR_MOD d ≠ 0 := by
    rw [hoff]; omega
  have hp : xmemory.memalignPtr d ptr (2 ^ k) = xmemory.getAlignedAddress d ptr (2 ^ k) := by
    unfold xmemory.memalignPtr
    simp only [hne, if_false]
  have ho : xmemory.memalignOffset d ptr (2 ^ k) = 2 ^ k - ptr % 2 ^ k := by
    unfold xmemory.memalignOffset
    simp only [hne, if_false]
    exact hoff
  refine ⟨⟨hne, hp, by rw [ho]; omega, by rw [ho]; omega⟩, ?_⟩
  intro hfit
  have h1 := getAlignedAddress_sub_mod d ptr k hbM
  rw [Nat.mod_eq_of_lt hfit] at h1
  have hdvd : 2 ^ k ∣ xmemory.getAlignedAddress d ptr (2 ^ k) := by
    rw [getAlignedAddress_pow2 d ptr k hbM]; exact Dvd.intro _ rfl
  have h3 : ptr % 2 ^ k ≤ ptr := Nat.mod_le _ _
  rw [hp, ho]
  refine ⟨Nat.mod_eq_zero_of_dvd hdvd, by omega, ?_, by omega, fun sz => ⟨by omega, by omega⟩⟩
  intro m hm hlt
  obtain ⟨q, hq⟩ := hdvd
  have hmq : m = 2 ^ k * (m / 2 ^ k) := by
    have := Nat.div_add_mod m (2 ^ k)
    omega
  rw [hq, hmq]
  apply Nat.mul_le_mul_left
  by_contra hcon
  have hle : m / 2 ^ k + 1 ≤ q := by omega
  have : 2 ^ k * (m / 2 ^ k + 1) ≤ 2 ^ k * q := Nat.mul_le_mul_left _ hle
  rw [Nat.mul_add, Nat.mul_one, ← hmq, ← hq] at this
  omega

theorem getAlignedAddress_next_multiple_witness :
    ((xmemory.getAlignedAddress build64 4100 (2 ^ 6) + PTR_MOD build64 - 4100) %
        PTR_MOD build64 ≠ 0 ∧
      xmemory.memalignPtr build64 4100 (2 ^ 6) = xmemory.getAlignedAddress build64 4100 (2 ^ 6) ∧
      1 ≤ xmemory.memalignOffset build64 4100 (2 ^ 6) ∧
      xmemory.memalignOffset build64 4100 (2 ^ 6) ≤ 2 ^ 6) ∧
    (4100 + 2 ^ 6 < PTR_MOD build64 →
      xmemory.getAlignedAddress build64 4100 (2 ^ 6) % 2 ^ 6 = 0 ∧
      4100 < xmemory.getAlignedAddress build64 4100 (2 ^ 6) ∧
      (∀ m, m % 2 ^ 6 = 0 → 4100 < m → xmemory.getAlignedAddress build64 4100 (2 ^ 6) ≤ m) ∧
      xmemory.memalignOffset build64 4100 (2 ^ 6) = xmemory.memalignPtr build64 4100 (2 ^ 6) - 4100 ∧
      ∀ sz, 4100 ≤ xmemory.memalignPtr build64 4100 (2 ^ 6) ∧
        xmemory.memalignPtr build64 4100 (2 ^ 6) + sz ≤ 4100 + 2 ^ 6 + sz) :=
  getAlignedAddress_next_multiple build64 4100 6 (by decide) (by decide)

/-! ## Phase and rendezvous (`globalinfo.h`) -/

theorem run_invariant (P : System → Prop)
    (hstep : ∀ s st s1, P s → s.step st = some s1 → P s1) :
    ∀ (steps : List Step) (s s1 : System), P s → s.run steps = some s1 → P s1 := by
  intro steps
  induction steps with
  | nil =>
    intro s s1 hP h
    simp only [System.run, Option.some.injEq] at h
    exact h ▸ hP
  | cons st rest ih =>
    intro s s1 hP h
    simp only [System.run] at h
    cases hs : s.step st with
    | none => rw [hs] at h; simp at h
    | some s2 =>
      rw [hs] at h
      exact ih s2 s1 (hstep s st s2 hP hs) h

theorem step_phase (s s1 : System) (st : Step) (h : s.step st = some s1) :
    s1.g.g_phase = st.phaseAfter s.g.g_phase := by
  cases st <;> simp only [System.step] at h <;>
    (try split at h) <;> (try split at h) <;>
    simp_all [Step.phaseAfter, global_initialize, global_setEpochEnd, global_setRollback,
      global_rollback] <;>
    subst h <;> rfl

/-- C13 (counterexample): from the initialised state, whose phase is `E_SYS_INIT`, the step
`global_setEpochEnd` leads to `E_SYS_EPOCH_END`, and Init to EpochEnd is not one of the
permitted transitions. -/
theorem setEpochEnd_from_init_not_permitted :
    ∃ s1, System.init.step .setEpochEnd = some s1 ∧
      System.init.g.g_phase = .E_SYS_INIT ∧ s1.g.g_phase = .E_SYS_EPOCH_END ∧
      permittedTransition .E_SYS_INIT .E_SYS_EPOCH_END = false :=
  ⟨_, rfl, by decide, by decide, by decide⟩

/-- C13 (amended): in every state reachable from the initialised one, the phase is never
`E_SYS_NORMAL_EXECUTION` (no operation of `globalinfo.h` stores it), and every step leaves the
phase that `Step.phaseAfter` gives: `global_initialize` stores Init, `global_setEpochEnd`
EpochEnd, `global_setRollback` and `global_rollback` Rollback, `global_epochBegin` EpochBegin,
each whatever the phase was, and the other steps store none. -/
theorem phase_stored_unconditionally (steps : List Step) (s : System)
    (h : System.init.run steps = some s) :
    s.g.g_phase ≠ .E_SYS_NORMAL_EXECUTION ∧
      ∀ st s1, s.step st = some s1 → s1.g.g_phase = st.phaseAfter s.g.g_phase := by
  refine ⟨?_, fun st s1 hs => step_phase s s1 st hs⟩
  refine run_invariant (fun s => s.g.g_phase ≠ .E_SYS_NORMAL_EXECUTION) ?_ steps System.init s
    (by decide) h
  intro s0 st s1 hP hs
  rw [step_phase s0 s1 st hs]
  cases st <;> simp [Step.phaseAfter] <;> exact hP

theorem phase_stored_unconditionally_witness :
    (global_setEpochEnd System.init.g).g_phase ≠ .E_SYS_NORMAL_EXECUTION ∧
      ∀ st s1, ({ System.init with g := global_setEpochEnd System.init.g } : System).step st =
          some s1 →
        s1.g.g_phase = st.phaseAfter (global_setEpochEnd System.init.g).g_phase :=
  phase_stored_unconditionally [.setEpochEnd]
    { System.init with g := global_setEpochEnd System.init.g } rfl

/-- C14: once `g_hasRollbacked` is true, every step other than `global_initialize` (the
setters, `global_rollback`, and every step of `global_epochBegin`, `global_waitThreadsStops`
and `global_waitForNotification`) leaves it true; and `global_setRollback` stores both
`g_phase = E_SYS_ROLLBACK` and `g_hasRollbacked = true`, whatever the globals were. -/
theorem hasRollbacked_monotone (s s1 : System) (st : Step) (hne : st ≠ .globalInit)
    (hstep : s.step st = some s1) (h : s.g.g_hasRollbacked = true) :
    s1.g.g_hasRollbacked = true ∧
      ∀ g, (global_setRollback g).g_phase = .E_SYS_ROLLBACK ∧
        (global_setRollback g).g_hasRollbacked = true := by
  refine ⟨?_, fun g => ⟨rfl, rfl⟩⟩
  cases st <;> simp only [System.step] at hstep <;>
    (try split at hstep) <;> (try split at hstep) <;>
    simp_all [global_setEpochEnd, global_setRollback, global_rollback] <;>
    subst hstep <;> simp_all

theorem hasRollbacked_monotone_witness :
    (global_setEpochEnd (global_setRollback System.init.g)).g_hasRollbacked = true ∧
      ∀ g, (global_setRollback g).g_phase = .E_SYS_ROLLBACK ∧
        (global_setRollback g).g_hasRollbacked = true :=
  hasRollbacked_monotone { System.init with g := global_setRollback System.init.g }
    { System.init with g := global_setEpochEnd (global_setRollback System.init.g) }
    .setEpochEnd (by decide) rfl rfl

theorem step_waiters (s s1 : System) (st : Step) (hinv : s.g.g_waiters = s.waiting.length)
    (h : s.step st = some s1) : s1.g.g_waiters = s1.waiting.length := by
  cases st with
  | waitForNotificationWake t =>
    simp only [System.step] at h
    split at h
    · rename_i hmem
      split at h
      · simp only [Option.some.injEq] at h; subst h; exact hinv
      · simp only [Option.some.injEq] at h; subst h
        have h1 := List.length_erase_of_mem hmem
        have h2 := List.length_pos_of_mem hmem
        simp only
        omega
    · simp at h
  | waitForNotificationLock t =>
    simp only [System.step] at h
    split at h
    · split at h
      · simp only [Option.some.injEq] at h; subst h
        simp only [List.length_cons]
        omega
      · simp only [Option.some.injEq] at h; subst h
        simp only
        omega
    · simp at h
  | _ =>
    simp only [System.step] at h
    (try split at h) <;> (try split at h) <;>
      simp_all [ global_initialize, global_setEpochEnd, global_setRollback, global_rollback] <;>
      subst h <;> simp_all

/-- C15 (counterexample): after `global_setEpochEnd`, thread 1 passes the entry assertion of
`global_waitForNotification` and increments `g_waiters` before the committer has stored a
total: the state has `g_waiters = 1` and `g_waitersTotal = 0`. -/
theorem waiters_above_total :
    ∃ s, System.init.run
        [.setEpochEnd, .waitForNotificationAssert 1, .waitForNotificationLock 1] = some s ∧
      System.init.g.g_waiters = 0 ∧ System.init.g.g_waitersTotal = 0 ∧
      s.g.g_waiters = 1 ∧ s.g.g_waitersTotal = 0 ∧ ¬ (s.g.g_waiters ≤ s.g.g_waitersTotal) :=
  ⟨_, rfl, by decide, by decide, by decide, by decide, by decide⟩

/-- C15 (amended): in every state reachable from the initialised one, `g_waiters` is the number
of threads blocked inside `global_waitForNotification`, so `0 <= g_waiters`. -/
theorem waiters_counts_blocked_threads (steps : List Step) (s : System)
    (h : System.init.run steps = some s) :
    0 ≤ s.g.g_waiters ∧ s.g.g_waiters = s.waiting.length := by
  have hinv : s.g.g_waiters = s.waiting.length :=
    run_invariant (fun s => s.g.g_waiters = s.waiting.length)
      (fun s0 st s1 hP hs => step_waiters s0 s1 st hP hs) steps System.init s (by decide) h
  exact ⟨by rw [hinv]; exact Int.natCast_nonneg _, hinv⟩

theorem waiters_counts_blocked_threads_witness :
    ∃ s, System.init.run
        [.setEpochEnd, .waitForNotificationAssert 1, .waitForNotificationLock 1,
          .waitForNotificationAssert 2, .waitForNotificationLock 2, .epochBegin,
          .waitForNotificationWake 1] = some s ∧
      0 ≤ s.g.g_waiters ∧ s.g.g_waiters = s.waiting.length ∧ s.waiting = [2] :=
  ⟨_, rfl,
    (waiters_counts_blocked_threads
      [.setEpochEnd, .waitForNotificationAssert 1, .waitForNotificationLock 1,
        .waitForNotificationAssert 2, .waitForNotificationLock 2, .epochBegin,
        .waitForNotificationWake 1] _ rfl).1,
    (waiters_counts_blocked_threads
      [.setEpochEnd, .waitForNotificationAssert 1, .waitForNotificationLock 1,
        .waitForNotificationAssert 2, .waitForNotificationLock 2, .epochBegin,
        .waitForNotificationWake 1] _ rfl).2, by decide⟩

/-- When `global_epochBegin` finds `g_waiters == 0` it returns without waiting, and then
`g_waiters == 0` holds on return. -/
theorem epochBegin_without_wait (s s1 : System) (h : s.step .epochBegin = some s1)
    (hrun : s1.committer = .running) : global_checkWaiters s1.g = true := by
  simp only [System.step] at h
  split at h
  · rename_i hc
    split at h
    · simp only [Option.some.injEq] at h; subst h; simp at hrun
    · rename_i hw
      simp only [Option.some.injEq] at h; subst h
      simp only [global_checkWaiters, decide_eq_true_eq]
      simpa using hw
  · simp at h

/-- C16 (the code at the failing schedule): one mutator is parked. After `global_setEpochEnd`
the committer waits in `global_waitThreadsStops(1)`, thread 1 enters
`global_waitForNotification` and blocks, the committer sees `g_waiters == g_waitersTotal` and
goes on to `global_epochBegin`, where `g_waiters != 0` sends it into its single
`pthread_cond_wait`. That wait returns before thread 1 has run (a spurious wake-up): the
committer does not test `g_waiters` again and returns from `global_epochBegin` with
`g_waiters = 1`, thread 1 still blocked, and the assertion of `global_checkWaiters` false. -/
theorem epochBegin_returns_with_waiters :
    ∃ s6 s7,
      System.init.run
        [.setEpochEnd, .waitThreadsStops 1, .waitForNotificationAssert 1,
          .waitForNotificationLock 1, .waitThreadsStopsWake, .epochBegin] = some s6 ∧
      s6.committer = .inEpochBegin ∧
      s6.step .epochBeginWake = some s7 ∧
      s7.committer = .running ∧ s7.g.g_waiters = 1 ∧ s7.waiting = [1] ∧
      global_checkWaiters s7.g = false :=
  ⟨_, _, rfl, by decide, rfl, by decide, by decide, by decide, by decide⟩

/-- C19: the two steps of a mutator in `global_waitForNotification` (from the lock, and from a
return of its `pthread_cond_wait`) change neither `g_phase`, `g_waitersTotal`, `g_numOfEnds`,
`g_hasRollbacked` nor `g_isRollback`. From the lock the mutator has incremented `g_waiters` and
either blocks (the phase is EpochEnd, `g_waiters` is one more) or has decremented it again and
returns (the phase is not EpochEnd, `g_waiters` is as before). From a wake-up it either blocks
again (the phase is EpochEnd, nothing changed) or decrements `g_waiters` and returns (the phase
is not EpochEnd, `g_waiters` is one less). So it returns only when the phase is not EpochEnd,
and over its call `g_waiters` is incremented once and decremented once. -/
theorem waitForNotification_steps (s s1 : System) (t : Nat)
    (h : s.step (.waitForNotificationLock t) = some s1 ∨
      s.step (.waitForNotificationWake t) = some s1) :
    (s1.g.g_phase = s.g.g_phase ∧ s1.g.g_waitersTotal = s.g.g_waitersTotal ∧
      s1.g.g_numOfEnds = s.g.g_numOfEnds ∧ s1.g.g_hasRollbacked = s.g.g_hasRollbacked ∧
      s1.g.g_isRollback = s.g.g_isRollback ∧ s1.committer = s.committer) ∧
    ((s.step (.waitForNotificationLock t) = some s1 ∧
        ((s1.g.g_phase = .E_SYS_EPOCH_END ∧ s1.waiting = t :: s.waiting ∧
            s1.g.g_waiters = s.g.g_waiters + 1) ∨
          (s1.g.g_phase ≠ .E_SYS_EPOCH_END ∧ s1.waiting = s.waiting ∧
            s1.g.g_waiters = s.g.g_waiters))) ∨
      (s.step (.waitForNotificationWake t) = some s1 ∧ t ∈ s.waiting ∧
        ((s1.g.g_phase = .E_SYS_EPOCH_END ∧ s1 = s) ∨
          (s1.g.g_phase ≠ .E_SYS_EPOCH_END ∧ s1.waiting = s.waiting.erase t ∧
            s1.g.g_waiters = s.g.g_waiters - 1)))) := by
  rcases h with h | h
  · have h0 := h
    simp only [System.step] at h
    split at h
    · split at h
      · rename_i hph
        simp only [global_isEpochEnd, decide_eq_true_eq] at hph
        simp only [Option.some.injEq] at h; subst h
        exact ⟨⟨rfl, rfl, rfl, rfl, rfl, rfl⟩, Or.inl ⟨h0, Or.inl ⟨hph, rfl, rfl⟩⟩⟩
      · rename_i hph
        simp only [global_isEpochEnd, decide_eq_true_eq] at hph
        simp only [Option.some.injEq] at h; subst h
        exact ⟨⟨rfl, rfl, rfl, rfl, rfl, rfl⟩,
          Or.inl ⟨h0, Or.inr ⟨hph, rfl, by simp⟩⟩⟩
    · simp at h
  · have h0 := h
    simp only [System.step] at h
    split at h
    · rename_i hmem
      split at h
      · rename_i hph
        simp only [global_isEpochEnd, decide_eq_true_eq] at hph
        simp only [Option.some.injEq] at h; subst h
        exact ⟨⟨rfl, rfl, rfl, rfl, rfl, rfl⟩, Or.inr ⟨h0, hmem, Or.inl ⟨hph, rfl⟩⟩⟩
      · rename_i hph
        simp only [global_isEpochEnd, decide_eq_true_eq] at hph
        simp only [Option.some.injEq] at h; subst h
        exact ⟨⟨rfl, rfl, rfl, rfl, rfl, rfl⟩, Or.inr ⟨h0, hmem, Or.inr ⟨hph, rfl, rfl⟩⟩⟩
    · simp at h

theorem waitForNotification_steps_witness :
    ∃ s1 : System,
      (s1.g.g_phase = parkedSystem.g.g_phase ∧
        s1.g.g_waitersTotal = parkedSystem.g.g_waitersTotal ∧
        s1.g.g_numOfEnds = parkedSystem.g.g_numOfEnds ∧
        s1.g.g_hasRollbacked = parkedSystem.g.g_hasRollbacked ∧
        s1.g.g_isRollback = parkedSystem.g.g_isRollback ∧
        s1.committer = parkedSystem.committer) ∧
      ((parkedSystem.step (.waitForNotificationLock 1) = some s1 ∧
          ((s1.g.g_phase = .E_SYS_EPOCH_END ∧ s1.waiting = 1 :: parkedSystem.waiting ∧
              s1.g.g_waiters = parkedSystem.g.g_waiters + 1) ∨
            (s1.g.g_phase ≠ .E_SYS_EPOCH_END ∧ s1.waiting = parkedSystem.waiting ∧
              s1.g.g_waiters = parkedSystem.g.g_waiters))) ∨
        (parkedSystem.step (.waitForNotificationWake 1) = some s1 ∧ 1 ∈ parkedSystem.waiting ∧
          ((s1.g.g_phase = .E_SYS_EPOCH_END ∧ s1 = parkedSystem) ∨
            (s1.g.g_phase ≠ .E_SYS_EPOCH_END ∧ s1.waiting = parkedSystem.waiting.erase 1 ∧
              s1.g.g_waiters = parkedSystem.g.g_waiters - 1)))) :=
  ⟨_, waitForNotification_steps parkedSystem _ 1 (Or.inr rfl)⟩

/-! ## `checkHeapOverflow` and `checkOverflowBeforehand` -/

/-- C17: in the Rollback phase `checkHeapOverflow` returns `false` with the state it was given:
neither the heap scan nor `hasToRollback()` is called. In any other phase the heap scan is
called; when it reports an overflow the result is `true` and `hasToRollback()` is not called;
when it reports none, `hasToRollback()` is called on the state the scan left and its answer is
the result. So the result is `true` if and only if the scan reports an overflow or
`hasToRollback()` answers `true`. -/
theorem checkHeapOverflow_result (g : Globals)
    (pheapCheckHeapOverflow hasToRollback : State → Bool × State) (s : State) :
    (g.g_phase = .E_SYS_ROLLBACK →
      xmemory.checkHeapOverflow g pheapCheckHeapOverflow hasToRollback s = (false, s)) ∧
    (g.g_phase ≠ .E_SYS_ROLLBACK →
      ((pheapCheckHeapOverflow (s.log .pheapCheckHeapOverflow)).1 = true →
        xmemory.checkHeapOverflow g pheapCheckHeapOverflow hasToRollback s =
          (true, (pheapCheckHeapOverflow (s.log .pheapCheckHeapOverflow)).2)) ∧
      ((pheapCheckHeapOverflow (s.log .pheapCheckHeapOverflow)).1 = false →
        xmemory.checkHeapOverflow g pheapCheckHeapOverflow hasToRollback s =
          hasToRollback ((pheapCheckHeapOverflow (s.log .pheapCheckHeapOverflow)).2.log
            .watchpointHasToRollback)) ∧
      ((xmemory.checkHeapOverflow g pheapCheckHeapOverflow hasToRollback s).1 = true ↔
        ((pheapCheckHeapOverflow (s.log .pheapCheckHeapOverflow)).1 = true ∨
          (hasToRollback ((pheapCheckHeapOverflow (s.log .pheapCheckHeapOverflow)).2.log
            .watchpointHasToRollback)).1 = true))) := by
  unfold xmemory.checkHeapOverflow global_isRollback
  constructor
  · intro h
    simp [h]
  · intro h
    simp only [h, decide_False, Bool.false_eq_true, if_false]
    generalize pheapCheckHeapOverflow (s.log .pheapCheckHeapOverflow) = r
    rcases r with ⟨b, s1⟩
    cases b
    · simp only [if_true, Bool.false_eq_true, false_implies, true_and, false_or, true_implies]
      generalize hasToRollback (s1.log .watchpointHasToRollback) = w
      rcases w with ⟨c, s2⟩
      cases c <;> simp
    · simp

/-- C20 (counterexample): with the heap `[4096, 8192)` and no guard recorded, the 8-byte buffer
at 8184 lies wholly inside the heap and contains no sentinel, but its end address 8192 is not
in range and `checkOverflowBeforehand` returns `true`. -/
theorem buffer_ending_at_heap_end_vetoed :
    (∀ i, i < 8 → (sampleHeap 32).inRange (8184 + i) = true) ∧
      sanitycheck.hasSentinels emptyState 8184 8 = false ∧
      xmemory.checkOverflowBeforehand build64 (sampleHeap 32) emptyState 8184 8 = true :=
  ⟨by decide, by decide, by decide⟩

/-- C20 (amended): `checkOverflowBeforehand(start, size)` returns `false` when `start` is
outside the heap, `true` when `start` is inside the heap but `start + size` is not, and
otherwise exactly `hasSentinels(start, size)`; in particular a buffer whose first address and
whose end address `start + size` are both inside the heap and which contains no sentinel is not
vetoed. -/
theorem checkOverflowBeforehand_cases (d : xdefines) (pheap : xpheap) (s : State)
    (start size : Nat) :
    (pheap.inRange start = false →
      xmemory.checkOverflowBeforehand d pheap s start size = false) ∧
    (pheap.inRange start = true → pheap.inRange ((start + size) % PTR_MOD d) = false →
      xmemory.checkOverflowBeforehand d pheap s start size = true) ∧
    (pheap.inRange start = true → pheap.inRange ((start + size) % PTR_MOD d) = true →
      xmemory.checkOverflowBeforehand d pheap s start size =
        sanitycheck.hasSentinels s start size) ∧
    (pheap.inRange start = true → pheap.inRange ((start + size) % PTR_MOD d) = true →
      sanitycheck.hasSentinels s start size = false →
      xmemory.checkOverflowBeforehand d pheap s start size = false) := by
  unfold xmemory.checkOverflowBeforehand
  refine ⟨?_, ?_, ?_, ?_⟩
  · intro h; simp [h]
  · intro h1 h2; simp [h1, h2]
  · intro h1 h2; simp [h1, h2]
  · intro h1 h2 h3; simp [h1, h2, h3]

/-- Where `memalign` does leave room: for a power-of-two boundary of at least
`2 * sizeof(size_t)` and a raw pointer aligned to `2 * sizeof(size_t)`, the offset assertion
holds. -/
theorem memalign_offset_room (d : xdefines) (ptr k : Nat) (hptr : ptr < PTR_MOD d)
    (hbM : 2 ^ k < PTR_MOD d) (hb : 2 * sizeof_size_t d ≤ 2 ^ k)
    (hal : ptr % (2 * sizeof_size_t d) = 0) :
    2 * sizeof_size_t d ≤ xmemory.memalignOffset d ptr (2 ^ k) := by
  have hoff := memalign_offset_pow2 d ptr k hptr hbM
  have ho : xmemory.memalignOffset d ptr (2 ^ k) = 2 ^ k - ptr % 2 ^ k := by
    unfold xmemory.memalignOffset
    have h2 : ptr % 2 ^ k < 2 ^ k := Nat.mod_lt _ (Nat.two_pow_pos k)
    have hne : (xmemory.getAlignedAddress d ptr (2 ^ k) + PTR_MOD d - ptr) % PTR_MOD d ≠ 0 := by
      rw [hoff]; omega
    simp only [hne, if_false]
    exact hoff
  rw [ho]
  have hW : 2 * sizeof_size_t d = 2 ^ 3 ∨ 2 * sizeof_size_t d = 2 ^ 4 := by
    unfold sizeof_size_t
    cases d.X86_32BIT <;> simp
  obtain ⟨j, hj⟩ : ∃ j, 2 * sizeof_size_t d = 2 ^ j := by
    rcases hW with h | h
    · exact ⟨3, h⟩
    · exact ⟨4, h⟩
  rw [hj] at hb hal ⊢
  have hjk : j ≤ k := (Nat.pow_le_pow_iff_right (by decide)).mp hb
  have hdvd : 2 ^ j ∣ 2 ^ k := Nat.pow_dvd_pow 2 hjk
  have hr : 2 ^ j ∣ ptr % 2 ^ k := by
    rw [Nat.dvd_iff_mod_eq_zero, Nat.mod_mod_of_dvd _ hdvd]
    exact hal
  have h2 : ptr % 2 ^ k < 2 ^ k := Nat.mod_lt _ (Nat.two_pow_pos k)
  obtain ⟨a, ha⟩ := hr
  obtain ⟨b, hb2⟩ := hdvd
  rw [ha, hb2] at h2 ⊢
  have hab : a < b := Nat.lt_of_mul_lt_mul_left h2
  have : 2 ^ j * (a + 1) ≤ 2 ^ j * b := Nat.mul_le_mul_left _ hab
  rw [Nat.mul_add, Nat.mul_one] at this
  omega

/-! ## Where `malloc` writes and where `isObjectOverflow` reports -/

/-- C23: for every block inside the address space whose size is a multiple of `WORD_SIZE` and
every requested size `sz` below it, every byte of a guard that `malloc` writes (the word at
`ptr + sz` for an aligned `sz`; otherwise the `WORD_SIZE - k` byte run at `ptr + sz` and, when
`block_size - sz > WORD_SIZE`, the next word) lies inside `[ptr + sz, ptr + block_size)`;
`malloc` changes no byte outside the guards, so none of `[ptr, ptr + sz)` and none past the
block; and the address `p + setBytes` of the second guard word in `malloc` is the address
`p - nonAlignedBytes + WORD_SIZE` that `isObjectOverflow` checks, namely
`ptr + sz + (WORD_SIZE - k)` when that word is written. -/
theorem malloc_writes_inside_tail (d : xdefines) (pheap : xpheap) (s : State) (heapid : Int)
    (sz ptr : Nat) (s0 : State) (hd : d.wellFormed)
    (hheap : pheap.malloc heapid (xmemory.mysize d sz)
      (s.log (.pheapMalloc heapid (xmemory.mysize d sz))) = (ptr, s0))
    (hsize : sz < (s0.headers ptr).block_size)
    (hfit : ptr + (s0.headers ptr).block_size ≤ PTR_MOD d)
    (hmult : (s0.headers ptr).block_size % WORD_SIZE d = 0) :
    ∃ s1, xmemory.malloc d pheap s heapid sz = .returned ptr s1 ∧
      (∀ x, inGuard d ptr sz (s0.headers ptr).block_size x →
        ptr + sz ≤ x ∧ x < ptr + (s0.headers ptr).block_size) ∧
      (∀ x, ¬ inGuard d ptr sz (s0.headers ptr).block_size x → s1.mem x = s0.mem x) ∧
      (∀ x, ¬ (ptr + sz ≤ x ∧ x < ptr + (s0.headers ptr).block_size) → s1.mem x = s0.mem x) ∧
      ((ptr + sz) % PTR_MOD d + (WORD_SIZE d - sz % WORD_SIZE d)) % PTR_MOD d =
        (((ptr + sz) % PTR_MOD d + PTR_MOD d - sz % WORD_SIZE d) % PTR_MOD d + WORD_SIZE d) %
          PTR_MOD d ∧
      ((s0.headers ptr).block_size - sz > WORD_SIZE d →
        ((ptr + sz) % PTR_MOD d + (WORD_SIZE d - sz % WORD_SIZE d)) % PTR_MOD d =
          ptr + sz + (WORD_SIZE d - sz % WORD_SIZE d)) := by
  obtain ⟨s1, hm, -, -, -, -, -, hfr, -⟩ :=
    malloc_spec d pheap s heapid sz ptr s0 hd hheap hsize
  have hin : ∀ x, inGuard d ptr sz (s0.headers ptr).block_size x →
      ptr + sz ≤ x ∧ x < ptr + (s0.headers ptr).block_size := by
    intro x hx
    obtain ⟨h1, h2⟩ := inGuard_iff d ptr sz _ x hsize hfit hmult
    have := h1.mp hx
    omega
  refine ⟨s1, hm, hin, hfr, fun x hx => hfr x (fun h => hx (hin x h)), ?_, ?_⟩
  · exact nextp_eq_malloc d ptr sz
  · intro hoff
    have hW : 0 < WORD_SIZE d := by
      rcases WORD_SIZE_cases d with ⟨h, -⟩ | ⟨h, -⟩ <;> omega
    have hklt := Nat.mod_lt sz hW
    rw [Nat.mod_eq_of_lt (show ptr + sz < PTR_MOD d by omega), Nat.mod_eq_of_lt (by omega)]

theorem malloc_writes_inside_tail_witness :
    ∃ s1, xmemory.malloc build64 (sampleHeap 32) emptyState 0 13 = .returned 4096 s1 ∧
      (∀ x, inGuard build64 4096 13 32 x → 4096 + 13 ≤ x ∧ x < 4096 + 32) ∧
      (∀ x, ¬ inGuard build64 4096 13 32 x →
        s1.mem x = ((emptyState.log (.pheapMalloc 0 (xmemory.mysize build64 13))).setHeader 4096
          ⟨32, 0, false, true⟩).mem x) ∧
      (∀ x, ¬ (4096 + 13 ≤ x ∧ x < 4096 + 32) →
        s1.mem x = ((emptyState.log (.pheapMalloc 0 (xmemory.mysize build64 13))).setHeader 4096
          ⟨32, 0, false, true⟩).mem x) ∧
      ((4096 + 13) % PTR_MOD build64 + (WORD_SIZE build64 - 13 % WORD_SIZE build64)) %
          PTR_MOD build64 =
        (((4096 + 13) % PTR_MOD build64 + PTR_MOD build64 - 13 % WORD_SIZE build64) %
          PTR_MOD build64 + WORD_SIZE build64) % PTR_MOD build64 ∧
      (32 - 13 > WORD_SIZE build64 →
        ((4096 + 13) % PTR_MOD build64 + (WORD_SIZE build64 - 13 % WORD_SIZE build64)) %
          PTR_MOD build64 = 4096 + 13 + (WORD_SIZE build64 - 13 % WORD_SIZE build64)) :=
  malloc_writes_inside_tail build64 (sampleHeap 32) emptyState 0 13 4096 _
    build64_wellFormed rfl (by decide) (by decide) (by decide)

theorem guardWordBroken_mod (d : xdefines) (mem : Nat → Nat) (ptr sz size a : Nat)
    (h : guardWordBroken d mem ptr sz size a) : a % WORD_SIZE d = ptr % WORD_SIZE d := by
  unfold guardWordBroken at h
  have key : (sz % WORD_SIZE d = 0 → tailp d ptr sz % WORD_SIZE d = ptr % WORD_SIZE d) ∧
      startp d ptr sz % WORD_SIZE d = ptr % WORD_SIZE d ∧
      nextp d ptr sz % WORD_SIZE d = ptr % WORD_SIZE d := by
    unfold nextp startp tailp
    rcases WORD_SIZE_cases d with ⟨h1, h2⟩ | ⟨h1, h2⟩ <;>
      · rw [h1, h2]
        omega
  by_cases hk : sz % WORD_SIZE d = 0
  · rw [if_pos hk] at h
    rw [h.1]; exact key.1 hk
  · rw [if_neg hk] at h
    rcases h with ⟨h, -⟩ | ⟨-, h, -⟩
    · rw [h]; exact key.2.1
    · rw [h]; exact key.2.2

/-- C24 (counterexample): on the 64-bit build, for the non-null pointer 4097 whose header gives
block size 32 and requested size 24, with zeros where the guard word would be,
`isObjectOverflow` returns `true` and adds the watchpoint at address `4097 + 24 = 4121`, which
is not word-aligned. -/
theorem isObjectOverflow_unaligned_watchpoint :
    ∃ s1, xmemory.isObjectOverflow build64 (emptyState.setHeader 4097 ⟨32, 24, false, true⟩)
        4097 = .returned true s1 ∧
      s1.watchpoints = [(4121, 0)] ∧ 4097 ≠ 0 ∧ ¬ (4121 % WORD_SIZE build64 = 0) :=
  ⟨_, rfl, by decide, by decide, by decide⟩

/-- C24 (amended): for the NULL pointer `isObjectOverflow` returns `true` and leaves the state,
so the watchpoints, as they are. For every non-null pointer, either the block size is below the
requested size and the assertion fails with the state unchanged, or `isObjectOverflow` returns,
and then it returns `true` if and only if it added at least one watchpoint; every watchpoint
address it added has the remainder of `ptr` modulo `WORD_SIZE` (it is word-aligned when `ptr`
is) and, when the block lies inside the address space, it lies in
`[ptr + sz - (sz mod WORD_SIZE), ptr + block_size)`. -/
theorem isObjectOverflow_watchpoints (d : xdefines) (s : State) (ptr : Nat) (hnull : ptr ≠ 0) :
    xmemory.isObjectOverflow d s 0 = .returned true s ∧
    (((s.headers ptr).block_size < (s.headers ptr).requested_size ∧
        xmemory.isObjectOverflow d s ptr = .assertFailed s) ∨
      ∃ b added s1, xmemory.isObjectOverflow d s ptr = .returned b s1 ∧
        s1.watchpoints = added ++ s.watchpoints ∧ (b = true ↔ added ≠ []) ∧
        ∀ a v, (a, v) ∈ added →
          a % WORD_SIZE d = ptr % WORD_SIZE d ∧
          (ptr % WORD_SIZE d = 0 → a % WORD_SIZE d = 0) ∧
          (ptr + (s.headers ptr).block_size ≤ PTR_MOD d →
            ptr + (s.headers ptr).requested_size -
              (s.headers ptr).requested_size % WORD_SIZE d ≤ a ∧
            a < ptr + (s.headers ptr).block_size)) := by
  refine ⟨by simp [xmemory.isObjectOverflow], ?_⟩
  rcases Nat.lt_trichotomy (s.headers ptr).block_size (s.headers ptr).requested_size with
    h | h | h
  · left
    refine ⟨h, ?_⟩
    unfold xmemory.isObjectOverflow
    simp [hnull, objectHeader.getSize, objectHeader.getObjectSize, h]
  · right
    refine ⟨false, [], s, isObjectOverflow_exact d s ptr hnull h.symm, rfl, by simp, ?_⟩
    intro a v hav
    simp at hav
  · right
    obtain ⟨b, added, s1, h1, -, -, -, h5, h6, h7⟩ := isObjectOverflow_spec d s ptr hnull h
    refine ⟨b, added, s1, h1, h5, h6, ?_⟩
    intro a v hav
    have hbr := ((h7 a v).mp hav).1
    have hm := guardWordBroken_mod d s.mem ptr _ _ a hbr
    exact ⟨hm, fun hal => by rw [hm]; exact hal,
      fun hfit => guardWordBroken_range d s.mem ptr _ _ a h hfit hbr⟩

theorem isObjectOverflow_watchpoints_witness :
    xmemory.isObjectOverflow build64 overflowedState 0 = .returned true overflowedState ∧
    (((overflowedState.headers 4096).block_size < (overflowedState.headers 4096).requested_size ∧
        xmemory.isObjectOverflow build64 overflowedState 4096 = .assertFailed overflowedState) ∨
      ∃ b added s1, xmemory.isObjectOverflow build64 overflowedState 4096 = .returned b s1 ∧
        s1.watchpoints = added ++ overflowedState.watchpoints ∧ (b = true ↔ added ≠ []) ∧
        ∀ a v, (a, v) ∈ added →
          a % WORD_SIZE build64 = 4096 % WORD_SIZE build64 ∧
          (4096 % WORD_SIZE build64 = 0 → a % WORD_SIZE build64 = 0) ∧
          (4096 + (overflowedState.headers 4096).block_size ≤ PTR_MOD build64 →
            4096 + (overflowedState.headers 4096).requested_size -
              (overflowedState.headers 4096).requested_size % WORD_SIZE build64 ≤ a ∧
            a < 4096 + (overflowedState.headers 4096).block_size)) :=
  isObjectOverflow_watchpoints build64 overflowedState 4096 (by decide)

/-! ## Rollback -/

/-- C21: `rollback` is `rollbackonly` followed by the recorded call of `installWatchpoints`, and
`rollbackonly` does not depend on `installWatchpoints` at all. When the collaborators leave the
ghost record alone, the calls `rollback` records are, in program order, heap
`recoverHeapMetadata`, globals `recoverMemory`, heap `recoverMemory`, watchpoint
`installWatchpoints` (the record is newest first); those of `rollbackonly` are the first three,
so `rollback` records what `rollbackonly` records followed by `installWatchpoints`, and
`rollbackonly` records no `installWatchpoints`. -/
theorem rollback_call_sequence (c : recovery) (s : State)
    (h1 : ∀ t, (c.pheap_recoverHeapMetadata t).trace = t.trace)
    (h2 : ∀ t, (c.globals_recoverMemory t).trace = t.trace)
    (h3 : ∀ t, (c.pheap_recoverMemory t).trace = t.trace)
    (h4 : ∀ t, (c.watchpoint_installWatchpoints t).trace = t.trace) :
    xmemory.rollback c s =
      c.watchpoint_installWatchpoints
        ((xmemory.rollbackonly c s).log .watchpointInstallWatchpoints) ∧
    (∀ f, xmemory.rollbackonly { c with watchpoint_installWatchpoints := f } s =
      xmemory.rollbackonly c s) ∧
    (xmemory.rollback c s).trace =
      [.watchpointInstallWatchpoints, .pheapRecoverMemory, .globalsRecoverMemory,
        .pheapRecoverHeapMetadata] ++ s.trace ∧
    (xmemory.rollbackonly c s).trace =
      [.pheapRecoverMemory, .globalsRecoverMemory, .pheapRecoverHeapMetadata] ++ s.trace ∧
    (xmemory.rollback c s).trace =
      .watchpointInstallWatchpoints :: (xmemory.rollbackonly c s).trace ∧
    (Event.watchpointInstallWatchpoints ∉ s.trace →
      Event.watchpointInstallWatchpoints ∉ (xmemory.rollbackonly c s).trace) := by
  have hro : (xmemory.rollbackonly c s).trace =
      [.pheapRecoverMemory, .globalsRecoverMemory, .pheapRecoverHeapMetadata] ++ s.trace := by
    simp only [xmemory.rollbackonly, State.log, h1, h2, h3, List.cons_append, List.nil_append]
  have hr : (xmemory.rollback c s).trace =
      .watchpointInstallWatchpoints :: (xmemory.rollbackonly c s).trace := by
    simp only [xmemory.rollback, xmemory.rollbackonly, State.log, h4]
  refine ⟨rfl, fun _ => rfl, ?_, hro, hr, ?_⟩
  · rw [hr, hro]
    rfl
  · intro hs
    rw [hro]
    simp [hs]

theorem rollback_call_sequence_witness :
    xmemory.rollback sampleRecovery overflowedState =
      sampleRecovery.watchpoint_installWatchpoints
        ((xmemory.rollbackonly sampleRecovery overflowedState).log
          .watchpointInstallWatchpoints) ∧
    (∀ f, xmemory.rollbackonly { sampleRecovery with watchpoint_installWatchpoints := f }
        overflowedState = xmemory.rollbackonly sampleRecovery overflowedState) ∧
    (xmemory.rollback sampleRecovery overflowedState).trace =
      [.watchpointInstallWatchpoints, .pheapRecoverMemory, .globalsRecoverMemory,
        .pheapRecoverHeapMetadata] ++ overflowedState.trace ∧
    (xmemory.rollbackonly sampleRecovery overflowedState).trace =
      [.pheapRecoverMemory, .globalsRecoverMemory, .pheapRecoverHeapMetadata] ++
        overflowedState.trace ∧
    (xmemory.rollback sampleRecovery overflowedState).trace =
      .watchpointInstallWatchpoints :: (xmemory.rollbackonly sampleRecovery overflowedState).trace ∧
    (Event.watchpointInstallWatchpoints ∉ overflowedState.trace →
      Event.watchpointInstallWatchpoints ∉
        (xmemory.rollbackonly sampleRecovery overflowedState).trace) :=
  rollback_call_sequence sampleRecovery overflowedState (fun _ => rfl) (fun _ => rfl)
    (fun _ => rfl) (fun _ => rfl)

/-! ## The quarantine check -/

theorem busyWait_none (fuel : Nat) : freelist.busyWait fuel = none := by
  induction fuel with
  | zero => rfl
  | succ n ih => exact ih

/-- C22: `checkUAF` does not return on a quarantine that holds a record: whatever the number of
loop iterations allowed and whatever `hasUsageAfterFree` answers, the call has not returned,
because the `while(1);` that follows the retrieval of the first record never ends. On the empty
quarantine it returns `false` at the first test of the loop condition. -/
theorem checkUAF_spins_on_first_record (hasUsageAfterFree : freeObject → Nat → Bool)
    (fuel : Nat) (object : freeObject) (rest : List freeObject) :
    freelist.checkUAF hasUsageAfterFree fuel (object :: rest) = none ∧
    freelist.checkUAF hasUsageAfterFree (fuel + 1) [] = some false := by
  constructor
  · cases fuel with
    | zero => rfl
    | succ n =>
      simp only [freelist.checkUAF, freelist.checkUAFLoop, freelist.retrieveFreeObject,
        busyWait_none]
  · rfl

end DoubleTake
